import Mathlib

/-!
Verification development for the torch3d repository: a shallow embedding of
the KITTI detection dataset loader (src/torch3d/datasets/kitti.py) and of the
two point-set layers XConv and SetAbstraction (src/torch3d/nn/conv.py),
together with theorems settling the specification's claims about them.

Real (floating-point) arithmetic of the source is modelled exactly over ℚ;
the claims under study are algebraic/structural (lengths, shapes, column
preservation, error conditions), not rounding-dependent.
-/

namespace Torch3d

/-- A LiDAR point: a row (x, y, z, intensity) of the point-cloud array. -/
abbrev Point4 := ℚ × ℚ × ℚ × ℚ

/-- Default point used with `List.getD` when indexing point clouds. -/
def pt0 : Point4 := (0, 0, 0, 0)

/-- The calibration record produced by `KITTIDetection.parse_kitti_calib`
(src/torch3d/datasets/kitti.py:109-127): four 3×4 projection matrices,
one 3×3 rectification rotation, and two 3×4 rigid transforms. -/
structure Calib where
  P0 : Matrix (Fin 3) (Fin 4) ℚ
  P1 : Matrix (Fin 3) (Fin 4) ℚ
  P2 : Matrix (Fin 3) (Fin 4) ℚ
  P3 : Matrix (Fin 3) (Fin 4) ℚ
  R0 : Matrix (Fin 3) (Fin 3) ℚ
  velo_to_cam : Matrix (Fin 3) (Fin 4) ℚ
  imu_to_velo : Matrix (Fin 3) (Fin 4) ℚ

/-- Shallow embedding of `KITTIDetection.lidar_to_rect`
(src/torch3d/datasets/kitti.py:51-57).  For each row the source builds
`xyzw = [x, y, z, 1]`, computes `xyz = xyzw · (velo_to_camᵀ · R0ᵀ)` as a
numpy row-vector matrix product, and re-appends the untouched intensity
column with `np.c_`. -/
def lidar_to_rect (calib : Calib) (lidar : List Point4) : List Point4 :=
  lidar.map fun pt =>
    let xyzw : Fin 4 → ℚ := ![pt.1, pt.2.1, pt.2.2.1, 1]
    let xyz := Matrix.vecMul xyzw (calib.velo_to_cam.transpose * calib.R0.transpose)
    (xyz 0, xyz 1, xyz 2, pt.2.2.2)

/-- The 3×4 identity transform with zero translation, used by the spec's
identity-calibration example. -/
def idVeloToCam : Matrix (Fin 3) (Fin 4) ℚ :=
  Matrix.of ![![1, 0, 0, 0], ![0, 1, 0, 0], ![0, 0, 1, 0]]

/-- The reference (specification-side) form of the rectification transform:
apply `velo_to_cam` to the homogeneous column vector first, then `R0`. -/
def rectifyRef (calib : Calib) (lidar : List Point4) : List Point4 :=
  lidar.map fun pt =>
    let v := Matrix.mulVec calib.R0
      (Matrix.mulVec calib.velo_to_cam ![pt.1, pt.2.1, pt.2.2.1, 1])
    (v 0, v 1, v 2, pt.2.2.2)

/-- Groups a list into consecutive chunks of 4, dropping a trailing partial
chunk.  This is the semantics of `np.fromfile(f, dtype=np.float32)` at the
byte level (numpy reads ⌊nbytes/itemsize⌋ complete items and silently
ignores leftover trailing bytes). -/
def chunk4 {α : Type} : List α → List (List α)
  | a :: b :: c :: d :: t => [a, b, c, d] :: chunk4 t
  | [] => []
  | [_] => []
  | [_, _] => []
  | [_, _, _] => []

/-- Semantics of `.reshape(-1, 4)` on a flat array: fails (ValueError)
unless the element count is divisible by 4, otherwise regroups into rows
of 4. -/
def npReshapeRows4 {α : Type} (xs : List α) : Option (List (List α)) :=
  if xs.length % 4 = 0 then some (chunk4 xs) else none

/-- Shallow embedding of `KITTIDetection._get_lidar`
(src/torch3d/datasets/kitti.py:93-97) at the byte level: the file's bytes
are read as 32-bit floats (4 bytes each, trailing partial float ignored,
float values kept as undecoded 4-byte groups since no claim depends on
them) and reshaped into rows of 4 floats.  `none` models the raised
exception. -/
def getLidarBytes (bytes : List ℕ) : Option (List (List (List ℕ))) :=
  npReshapeRows4 (chunk4 bytes)

/-- Embedding of the Python regex test `re.match("^[0-9]{6}.bin$", s)`
(src/torch3d/datasets/kitti.py:47).  The unescaped `.` matches any single
character, so the pattern accepts: six digits, one arbitrary character,
then the letters b, i, n, at end of string. -/
def reMatch6bin (s : String) : Bool :=
  let cs := s.toList
  cs.length == 10 && (cs.take 6).all (·.isDigit) && (cs.drop 7 == ['b', 'i', 'n'])

/-- Embedding of `x.split(".")[0]`: the characters before the first dot
(the whole string when no dot occurs). -/
def beforeDot (s : String) : List Char :=
  s.toList.takeWhile (fun c => !(c == '.'))

/-- Embedding of Python `int(str)` on the strings reachable here: succeeds
exactly on nonempty all-digit strings (a string still containing letters,
such as one with no dot to split on, raises ValueError, modelled as
`none`). -/
def pyIntDigits (cs : List Char) : Option ℕ :=
  if cs ≠ [] ∧ cs.all (·.isDigit) then
    some (cs.foldl (fun acc c => acc * 10 + (c.toNat - 48)) 0)
  else none

/-- Failure-propagating map, the semantics of a Python list comprehension
whose body may raise: the first raised exception aborts the whole
comprehension. -/
def optMapM {α β : Type} (f : α → Option β) : List α → Option (List β)
  | [] => some []
  | a :: t => do
    let b ← f a
    let bs ← optMapM f t
    pure (b :: bs)

/-- Shallow embedding of the frame-list construction in
`KITTIDetection.__init__` (src/torch3d/datasets/kitti.py:43-49):
`sorted([int(x.split(".")[0]) for x in listdir if re.match(...)])`.
`none` models a ValueError escaping the comprehension. -/
def mkFramelist (names : List String) : Option (List ℕ) :=
  (optMapM (fun s => pyIntDigits (beforeDot s)) (names.filter reMatch6bin)).map
    (List.insertionSort (· ≤ ·))

/-- A filename of the exact form `{id:06d}.bin`: six digits, a literal
dot, then `bin` (the specification's notion of the 6-digit pattern). -/
def properForm (s : String) : Bool :=
  let cs := s.toList
  cs.length == 10 && (cs.take 6).all (·.isDigit) && (cs.getD 6 ' ' == '.')
    && (cs.drop 7 == ['b', 'i', 'n'])

/-- The frame identifier denoted by a `{id:06d}.bin` filename. -/
def idOf (s : String) : ℕ :=
  (pyIntDigits (beforeDot s)).getD 0

/-- Python list indexing `xs[i]` for nonnegative `i`: IndexError out of
range, modelled as `none`. -/
def pyGet {α : Type} (xs : List α) (i : ℕ) : Option α := xs[i]?

/-- Python slicing `xs[a:b]` for nonnegative bounds: never raises, and
silently returns fewer elements when the list is short. -/
def pySlice {α : Type} (a b : ℕ) (xs : List α) : List α := (xs.drop a).take (b - a)

/-- The numeric value of a digit string. -/
def digitsVal (cs : List Char) : ℕ :=
  cs.foldl (fun acc c => acc * 10 + (c.toNat - 48)) 0

/-- Tail of Python float parsing after an `e`/`E`: optional sign and a
nonempty digit exponent. -/
def parseExpTail (base : ℚ) (cs : List Char) : Option ℚ :=
  let sgncs : ℤ × List Char :=
    match cs with
    | '-' :: t => (-1, t)
    | '+' :: t => (1, t)
    | _ => (1, cs)
  if sgncs.2 ≠ [] ∧ sgncs.2.all (·.isDigit) then
    some (base * (10 : ℚ) ^ (sgncs.1 * (digitsVal sgncs.2 : ℤ)))
  else none

/-- Embedding of Python `float(str)` on decimal literals: optional sign,
integer and/or fractional digits, optional exponent.  (The `inf`/`nan`
spellings and underscore separators are not modelled; no claim depends on
them.)  Values are exact rationals. -/
def pyFloat (s : String) : Option ℚ :=
  let sgncs : ℚ × List Char :=
    match s.toList with
    | '-' :: t => (-1, t)
    | '+' :: t => (1, t)
    | cs => (1, cs)
  let sgn := sgncs.1
  let ip := sgncs.2.takeWhile (·.isDigit)
  let rest := sgncs.2.dropWhile (·.isDigit)
  match rest with
  | [] => if ip = [] then none else some (sgn * digitsVal ip)
  | '.' :: r2 =>
    let fp := r2.takeWhile (·.isDigit)
    let r3 := r2.dropWhile (·.isDigit)
    if ip = [] ∧ fp = [] then none
    else
      let base : ℚ := sgn * ((digitsVal ip : ℚ) + (digitsVal fp : ℚ) / (10 : ℚ) ^ fp.length)
      match r3 with
      | [] => some base
      | 'e' :: r4 => parseExpTail base r4
      | 'E' :: r4 => parseExpTail base r4
      | _ => none
  | 'e' :: r2 => if ip ≠ [] then parseExpTail (sgn * digitsVal ip) r2 else none
  | 'E' :: r2 => if ip ≠ [] then parseExpTail (sgn * digitsVal ip) r2 else none
  | _ => none

/-- Embedding of Python `int(str)`: optional sign and a nonempty digit
string (strict — `int("0.0")` raises). -/
def pyIntZ (s : String) : Option ℤ :=
  match s.toList with
  | '-' :: t =>
    if t ≠ [] ∧ t.all (·.isDigit) then some (-(digitsVal t : ℤ)) else none
  | '+' :: t =>
    if t ≠ [] ∧ t.all (·.isDigit) then some ((digitsVal t : ℤ)) else none
  | cs =>
    if cs ≠ [] ∧ cs.all (·.isDigit) then some ((digitsVal cs : ℤ)) else none

/-- Python `str.strip()`: drops leading and trailing whitespace. -/
def pyStrip (cs : List Char) : List Char :=
  ((cs.dropWhile (·.isWhitespace)).reverse.dropWhile (·.isWhitespace)).reverse

/-- Python `str.split(" ")` on the character level: splits at every single
space, so consecutive spaces yield empty fields and the result is always
nonempty. -/
def splitOnSpace : List Char → List (List Char)
  | [] => [[]]
  | c :: t =>
    match splitOnSpace t with
    | [] => [[c]]
    | r :: rs => if c = ' ' then [] :: r :: rs else (c :: r) :: rs

/-- The token list of one label line: `line.strip().split(" ")`
(src/torch3d/datasets/kitti.py:141).  Note the split is on single spaces,
so consecutive spaces yield empty tokens, exactly as in Python. -/
def tokensOf (l : String) : List String :=
  (splitOnSpace (pyStrip l.toList)).map fun cs => String.mk cs

/-- The rational denoted by a float token (0 when unparseable; used only
where parsing is known to succeed). -/
def floatVal (s : String) : ℚ := (pyFloat s).getD 0

/-- The integer denoted by an int token (0 when unparseable; used only
where parsing is known to succeed). -/
def intVal (s : String) : ℤ := (pyIntZ s).getD 0

/-- Groups a list into consecutive chunks of 3 (trailing partial chunk
dropped; callers check divisibility first). -/
def chunk3 {α : Type} : List α → List (List α)
  | a :: b :: c :: t => [a, b, c] :: chunk3 t
  | [] => []
  | [_] => []
  | [_, _] => []

/-- Semantics of `np.array` on a list of rows: modern numpy raises a
ValueError on ragged (inhomogeneous) nested lists, otherwise produces the
2-D array. -/
def npArray2 {α : Type} (rows : List (List α)) : Option (List (List α)) :=
  if rows.all (fun r => r.length == (rows.headD []).length) then some rows else none

/-- Semantics of `.reshape(-1, 3)` on a flat array. -/
def npReshapeRows3 {α : Type} (xs : List α) : Option (List (List α)) :=
  if xs.length % 3 = 0 then some (chunk3 xs) else none

/-- The parsed annotation set of one label file: parallel per-object
sequences (one entry per line of the file). -/
structure KittiLabel where
  cls : List String
  truncated : List ℚ
  occluded : List ℤ
  alpha : List ℚ
  bbox : List (List ℚ)
  size : List (List ℚ)
  center : List (List ℚ)
  yaw : List ℚ
deriving DecidableEq

/-- Shallow embedding of `KITTIDetection.parse_kitti_label`
(src/torch3d/datasets/kitti.py:129-154), in source order: per-line token
lists, then the eight per-field comprehensions (`np.array` of a ragged
list of lists fails), then the `reshape(-1, ·)` calls (the final
`reshape(-1)` on `yaw` is the identity on a flat sequence).  `none`
models any raised IndexError/ValueError. -/
def parse_kitti_label (lines : List String) : Option KittiLabel :=
  (optMapM (fun x => pyGet x 0) (lines.map tokensOf)).bind fun cls =>
  (optMapM (fun x => (pyGet x 1).bind pyFloat) (lines.map tokensOf)).bind fun truncated =>
  (optMapM (fun x => (pyGet x 2).bind pyIntZ) (lines.map tokensOf)).bind fun occluded =>
  (optMapM (fun x => (pyGet x 3).bind pyFloat) (lines.map tokensOf)).bind fun alpha =>
  (optMapM (fun x => optMapM pyFloat (pySlice 4 8 x)) (lines.map tokensOf)).bind fun bbox0 =>
  (npArray2 bbox0).bind fun bbox1 =>
  (optMapM (fun x => optMapM pyFloat (pySlice 8 11 x)) (lines.map tokensOf)).bind fun size0 =>
  (npArray2 size0).bind fun size1 =>
  (optMapM (fun x => optMapM pyFloat (pySlice 11 14 x)) (lines.map tokensOf)).bind fun center0 =>
  (npArray2 center0).bind fun center1 =>
  (optMapM (fun x => (pyGet x 14).bind pyFloat) (lines.map tokensOf)).bind fun yaw =>
  (npReshapeRows4 bbox1.flatten).bind fun bbox =>
  (npReshapeRows3 size1.flatten).bind fun size =>
  (npReshapeRows3 center1.flatten).bind fun center =>
  some ⟨cls, truncated, occluded, alpha, bbox, size, center, yaw⟩

/-- Well-formedness of one label line: at least 15 single-space-separated
tokens, with tokens 2, 4, and 5–15 parsing as floats and token 3 as an
integer. -/
def lineOK (l : String) : Prop :=
  15 ≤ (tokensOf l).length ∧
  (pyFloat ((tokensOf l).getD 1 "")).isSome = true ∧
  (pyIntZ ((tokensOf l).getD 2 "")).isSome = true ∧
  (pyFloat ((tokensOf l).getD 3 "")).isSome = true ∧
  ∀ i ∈ List.range' 4 11, (pyFloat ((tokensOf l).getD i "")).isSome = true

instance (l : String) : Decidable (lineOK l) := by
  unfold lineOK
  infer_instance

/-- The specification section-8 example label line. -/
def sampleLabelLines : List String :=
  ["Car 0.0 0 -1.5 10 20 30 40 1.5 1.6 3.8 1.0 1.0 5.0 1.57"]

/-- An abstract handle standing for an opened PIL image: image decoding is
an external collaborator, so an image is identified by an opaque token. -/
abbrev ImageHandle := ℕ

/-- Path concatenation as performed by `os.path.join` on relative POSIX
paths. -/
def pathJoin (a b : String) : String := a ++ "/" ++ b

/-- The filesystem facts and per-frame artifact stores the loader reads.
Byte/text-level decoding is modelled separately where claims need it
(`getLidarBytes`, `parse_kitti_label`, `mkFramelist`); the stores address
each frame's artifacts by identifier, and `labelStore` holds the raw label
lines so that label parsing stays part of `__getitem__`. -/
structure KittiEnv where
  pathExists : String → Bool
  lidarDirNames : List String
  imageStore : ℕ → ImageHandle
  lidarStore : ℕ → List Point4
  calibStore : ℕ → Calib
  labelStore : ℕ → List String

/-- The inputs part of one frame sample: image, point cloud,
calibration. -/
structure SampleInputs where
  image : ImageHandle
  lidar : List Point4
  calib : Calib

/-- A composite sample: inputs plus optional annotation target. -/
abbrev Sample := SampleInputs × Option KittiLabel

/-- The Python exceptions the loader can raise, by kind. -/
inductive PyErr
  | runtimeError
  | valueError
  | indexError
  | labelError
deriving DecidableEq

/-- Split resolution in `KITTIDetection.__init__`
(src/torch3d/datasets/kitti.py:28-31): "train" and "val" resolve to the
"training" directory; every other split string silently resolves to
"testing". -/
def resolvedSplit (split : String) : String :=
  if split = "train" ∨ split = "val" then "training" else "testing"

/-- Embedding of `KITTIDetection._check_integrity`
(src/torch3d/datasets/kitti.py:59-65): image, calibration and point-cloud
directories must exist, and the label directory only for the training
split. -/
def checkIntegrity (env : KittiEnv) (root split : String) : Bool :=
  env.pathExists (pathJoin (pathJoin root split) "image_2") &&
  env.pathExists (pathJoin (pathJoin root split) "calib") &&
  env.pathExists (pathJoin (pathJoin root split) "velodyne") &&
  (if split = "training"
   then env.pathExists (pathJoin (pathJoin root split) "label_2")
   else true)

/-- The in-memory dataset object after `__init__`. -/
structure KittiDataset where
  root : String
  split : String
  transforms : Option (Sample → Sample)
  rectified : Bool
  framelist : List ℕ

/-- Embedding of `KITTIDetection.__init__`
(src/torch3d/datasets/kitti.py:25-49): resolve the split, check the
required directories (RuntimeError otherwise), then build the frame list
from the point-cloud directory listing (a ValueError may escape). -/
def mkDataset (env : KittiEnv) (root split : String)
    (transforms : Option (Sample → Sample)) (rectified : Bool) :
    Except PyErr KittiDataset :=
  if checkIntegrity env root (resolvedSplit split) then
    match mkFramelist env.lidarDirNames with
    | some fl => .ok ⟨root, resolvedSplit split, transforms, rectified, fl⟩
    | none => .error .valueError
  else .error .runtimeError

/-- Python list indexing with an arbitrary integer index: negative indices
count from the end, an out-of-range index raises IndexError (`none`). -/
def pyIdx {α : Type} (xs : List α) (i : ℤ) : Option α :=
  let j := if i < 0 then i + xs.length else i
  if 0 ≤ j ∧ j < (xs.length : ℤ) then xs[j.toNat]? else none

/-- The composite sample built by `KITTIDetection.__getitem__`
(src/torch3d/datasets/kitti.py:70-82) for a frame identifier, BEFORE the
user transform: image, lidar (rectified when requested), calibration, and
the parsed label file as target only for the training split.  A failure
inside label parsing (IndexError/ValueError) is tagged `labelError`. -/
def rawSample (env : KittiEnv) (ds : KittiDataset) (frameid : ℕ) :
    Except PyErr Sample :=
  match (if ds.split = "training"
         then (parse_kitti_label (env.labelStore frameid)).map some
         else some none) with
  | none => .error .labelError
  | some target =>
    let lidar := if ds.rectified
      then lidar_to_rect (env.calibStore frameid) (env.lidarStore frameid)
      else env.lidarStore frameid
    .ok (⟨env.imageStore frameid, lidar, env.calibStore frameid⟩, target)

/-- Application of the optional user transform to the (inputs, target)
pair (src/torch3d/datasets/kitti.py:83-84). -/
def applyTf (tf : Option (Sample → Sample)) (s : Sample) : Sample :=
  match tf with
  | none => s
  | some f => f s

/-- Embedding of `KITTIDetection.__getitem__`
(src/torch3d/datasets/kitti.py:70-85): index the frame list (Python
indexing), build the raw sample, then apply the user transform. -/
def getitem (env : KittiEnv) (ds : KittiDataset) (i : ℤ) : Except PyErr Sample :=
  match pyIdx ds.framelist i with
  | none => .error .indexError
  | some frameid =>
    match rawSample env ds frameid with
    | .error e => .error e
    | .ok s => .ok (applyTf ds.transforms s)

/-- A trivial calibration record used in concrete examples. -/
def calib0 : Calib := ⟨0, 0, 0, 0, 1, idVeloToCam, 0⟩

/-- A concrete environment for examples: every path exists, one frame file,
empty artifacts. -/
def envEx : KittiEnv :=
  ⟨fun _ => true, ["000005.bin"], fun _ => 0, fun _ => [], fun _ => calib0,
    fun _ => []⟩

/-- A concrete test-split dataset over `envEx` with a single frame 5. -/
def dsEx : KittiDataset := ⟨"data/KITTI", "testing", none, false, [5]⟩

/-- A 3-D point (x, y, z) as used by the point-set layers. -/
abbrev Vec3 := ℚ × ℚ × ℚ

/-- Default 3-D point for `List.getD`. -/
def v3zero : Vec3 := (0, 0, 0)

/-- Squared Euclidean distance between two 3-D points. -/
def sqDist (a b : Vec3) : ℚ :=
  (a.1 - b.1) ^ 2 + (a.2.1 - b.2.1) ^ 2 + (a.2.2 - b.2.2) ^ 2

/-- A rank-3 tensor (one batch entry), nested lists over ℚ. -/
abbrev T3 := List (List (List ℚ))

/-- Element access into a rank-3 tensor (0 outside). -/
def t3get (x : T3) (c h w : ℕ) : ℚ := ((x.getD c []).getD h []).getD w 0

/-- Element access into a matrix as nested lists (0 outside). -/
def m2get (x : List (List ℚ)) (i j : ℕ) : ℚ := (x.getD i []).getD j 0

/-- The number of rows of channel 0 (the H extent read off a tensor). -/
def t3H (x : T3) : ℕ := (x.getD 0 []).length

/-- The length of row 0 of channel 0 (the W extent read off a tensor). -/
def t3W (x : T3) : ℕ := ((x.getD 0 []).getD 0 []).length

/-- Parameters of one `nn.Conv2d`: weight (out × in × kh × kw) and bias. -/
structure Conv2dP where
  weight : List (List (List (List ℚ)))
  bias : List ℚ

/-- The kernel height of a convolution, read off its weight. -/
def convKh (p : Conv2dP) : ℕ := ((p.weight.getD 0 []).getD 0 []).length

/-- The kernel width of a convolution, read off its weight. -/
def convKw (p : Conv2dP) : ℕ := (((p.weight.getD 0 []).getD 0 []).getD 0 []).length

/-- Semantics of `nn.Conv2d` (stride 1, no padding) on one batch entry:
output extent `H + 1 - kh` by `W + 1 - kw`, each output value the bias
plus the windowed weighted sum. -/
def conv2d (p : Conv2dP) (x : T3) : T3 :=
  (List.range p.weight.length).map fun co =>
    (List.range (t3H x + 1 - convKh p)).map fun h =>
      (List.range (t3W x + 1 - convKw p)).map fun w =>
        p.bias.getD co 0 +
        ((List.range (p.weight.getD co []).length).map fun ci =>
          ((List.range (convKh p)).map fun a =>
            ((List.range (convKw p)).map fun b =>
              (((p.weight.getD co []).getD ci []).getD a []).getD b 0 *
                t3get x ci (h + a) (w + b)).sum).sum).sum

/-- Eval-mode `nn.BatchNorm2d` parameters, in premultiplied affine form:
`scale = γ / sqrt(running_var + ε)` and `shift = β − running_mean · scale`.
The square root enters only through these stored per-channel constants,
kept as rationals; eval-mode normalization is exactly the per-channel
affine map `v ↦ scale · v + shift`, and it reads but never writes the
running statistics (training-mode updates are outside the
specification's scope). -/
structure BN2dP where
  scale : List ℚ
  shift : List ℚ

/-- Eval-mode `nn.BatchNorm2d` on one batch entry. -/
def bn2d (p : BN2dP) (x : T3) : T3 :=
  (List.range x.length).map fun c =>
    (x.getD c []).map fun row => row.map fun v =>
      p.scale.getD c 0 * v + p.shift.getD c 0

/-- `nn.ReLU` on one batch entry. -/
def relu2d (x : T3) : T3 :=
  x.map (·.map (·.map (fun v => max v 0)))

/-- The learned parameters of `XConv.__init__`
(src/torch3d/nn/conv.py:12-45): the two-stage lifting mlp, the three-stage
spatial-transform network, and the final projection, each a Conv2d plus
its BatchNorm. -/
structure XConvP where
  mlpC1 : Conv2dP
  mlpB1 : BN2dP
  mlpC2 : Conv2dP
  mlpB2 : BN2dP
  stnC1 : Conv2dP
  stnB1 : BN2dP
  stnC2 : Conv2dP
  stnB2 : BN2dP
  stnC3 : Conv2dP
  convC : Conv2dP
  convB : BN2dP

/-- `XConv.mlp` (src/torch3d/nn/conv.py:21-28): two conv+bn+relu stages. -/
def xconvMlp (p : XConvP) (x : T3) : T3 :=
  relu2d (bn2d p.mlpB2 (conv2d p.mlpC2 (relu2d (bn2d p.mlpB1 (conv2d p.mlpC1 x)))))

/-- `XConv.stn` (src/torch3d/nn/conv.py:29-37): three conv stages, the
last without nonlinearity. -/
def xconvStn (p : XConvP) (x : T3) : T3 :=
  conv2d p.stnC3
    (relu2d (bn2d p.stnB2 (conv2d p.stnC2
      (relu2d (bn2d p.stnB1 (conv2d p.stnC1 x))))))

/-- `XConv.conv` (src/torch3d/nn/conv.py:38-45): final conv+bn+relu. -/
def xconvFinal (p : XConvP) (x : T3) : T3 :=
  relu2d (bn2d p.convB (conv2d p.convC x))

/-- The ordering by which the nearest-neighbor search ranks candidate
point indices for a query: strictly smaller squared distance first, ties
broken by index (a concrete, stable total order). -/
def knnRel (pts : List Vec3) (qp : Vec3) (i j : ℕ) : Prop :=
  sqDist (pts.getD i v3zero) qp < sqDist (pts.getD j v3zero) qp ∨
    (sqDist (pts.getD i v3zero) qp = sqDist (pts.getD j v3zero) qp ∧ i ≤ j)

instance (pts : List Vec3) (qp : Vec3) : DecidableRel (knnRel pts qp) := by
  unfold knnRel
  infer_instance

instance (pts : List Vec3) (qp : Vec3) : IsTotal ℕ (knnRel pts qp) := by
  constructor
  intro i j
  unfold knnRel
  rcases lt_trichotomy (sqDist (pts.getD i v3zero) qp) (sqDist (pts.getD j v3zero) qp)
    with h | h | h
  · exact Or.inl (Or.inl h)
  · rcases Nat.le_total i j with hij | hij
    · exact Or.inl (Or.inr ⟨h, hij⟩)
    · exact Or.inr (Or.inr ⟨h.symm, hij⟩)
  · exact Or.inr (Or.inl h)

instance (pts : List Vec3) (qp : Vec3) : IsTrans ℕ (knnRel pts qp) := by
  constructor
  intro a b c hab hbc
  unfold knnRel at *
  rcases hab with h1 | ⟨h1, h1n⟩ <;> rcases hbc with h2 | ⟨h2, h2n⟩
  · exact Or.inl (h1.trans h2)
  · exact Or.inl (h2 ▸ h1)
  · exact Or.inl (h1 ▸ h2)
  · exact Or.inr ⟨h1.trans h2, h1n.trans h2n⟩

/-- Modelled from the spec: `torch3d.nn.functional.knn` is repository code
not under src/; per the specification it is the batched k-nearest-neighbor
collaborator returning, for each query, the indices of the `m` nearest
points by Euclidean distance in distance-sorted order.  Modelled as the
first `m` indices of a stable sort of all point indices by distance to the
query. -/
def knnModel (pts : List Vec3) (qp : Vec3) (m : ℕ) : List ℕ :=
  (List.insertionSort (knnRel pts qp) (List.range pts.length)).take m

/-- Python extended slicing `l[::d]` for a positive step: the elements at
positions 0, d, 2d, … (src/torch3d/nn/conv.py:50 slices the last axis of
the index tensor). -/
def sliceStep (d : ℕ) (l : List ℕ) : List ℕ :=
  (List.range ((l.length + d - 1) / d)).map fun j => l.getD (j * d) 0

/-- The per-query selected neighbor indices of `XConv.forward`
(src/torch3d/nn/conv.py:49-50): the `kernel·dil` nearest, then every
`dil`-th of them. -/
def xconvIndices (kernel dil : ℕ) (pts q : List Vec3) : List (List ℕ) :=
  q.map fun qp => sliceStep dil (knnModel pts qp (kernel * dil))

/-- The per-batch-entry gather `p[b, i]` (src/torch3d/nn/conv.py:51). -/
def gatherPts (pts : List Vec3) (idx : List (List ℕ)) : List (List Vec3) :=
  idx.map (·.map fun i => pts.getD i v3zero)

/-- The relative offsets `p - q.unsqueeze(2)` (src/torch3d/nn/conv.py:52),
laid out (query, neighbor, coordinate). -/
def relOffsets (q : List Vec3) (g : List (List Vec3)) : T3 :=
  (q.zip g).map fun pr => pr.2.map fun n =>
    [n.1 - pr.1.1, n.2.1 - pr.1.2.1, n.2.2 - pr.1.2.2]

/-- `permute(0, 3, 1, 2)` on one batch entry: (H, W, C) → (C, H, W). -/
def permQKCtoCQK (x : T3) : T3 :=
  (List.range (((x.getD 0 []).getD 0 []).length)).map fun c =>
    (List.range x.length).map fun qi =>
      (List.range ((x.getD 0 []).length)).map fun ki => t3get x qi ki c

/-- `permute(0, 2, 3, 1)` on one batch entry: (C, H, W) → (H, W, C). -/
def permCQKtoQKC (x : T3) : T3 :=
  (List.range ((x.getD 0 []).length)).map fun qi =>
    (List.range (((x.getD 0 []).getD 0 []).length)).map fun ki =>
      (List.range x.length).map fun c => t3get x c qi ki

/-- `x.permute(0, 2, 1)` on one batch entry: matrix transpose. -/
def transpose2 (m : List (List ℚ)) : List (List ℚ) :=
  (List.range ((m.getD 0 []).length)).map fun i =>
    (List.range m.length).map fun j => m2get m j i

/-- The per-batch-entry feature gather `x[b, i]`
(src/torch3d/nn/conv.py:58). -/
def gatherRows (rows : List (List ℚ)) (idx : List (List ℕ)) :
    List (List (List ℚ)) :=
  idx.map (·.map fun i => rows.getD i [])

/-- `torch.cat([a, b], dim=-1)` on matching leading extents. -/
def catLast (a b : T3) : T3 :=
  (a.zip b).map fun pr => (pr.1.zip pr.2).map fun rr => rr.1 ++ rr.2

/-- The `T.view(B, k, k, -1).permute(0, 3, 1, 2)` reshaping of the
spatial-transform output (src/torch3d/nn/conv.py:61-62): per query the
k×k matrix whose (a, b) entry is channel a·k+b of the stn output. -/
def stnMatrices (k : ℕ) (T : T3) : T3 :=
  (List.range ((T.getD 0 []).length)).map fun qi =>
    (List.range k).map fun a =>
      (List.range k).map fun b => t3get T (a * k + b) qi 0

/-- Matrix product on nested lists. -/
def mmul (A B : List (List ℚ)) : List (List ℚ) :=
  (List.range A.length).map fun i =>
    (List.range ((B.getD 0 []).length)).map fun j =>
      ((List.range ((A.getD i []).length)).map fun l =>
        m2get A i l * m2get B l j).sum

/-- `torch.matmul` batched over the query axis
(src/torch3d/nn/conv.py:63). -/
def bmm (T X : T3) : T3 := (T.zip X).map fun pr => mmul pr.1 pr.2

/-- `x.squeeze(3)` on a final axis of extent 1
(src/torch3d/nn/conv.py:67): drop the width axis by reading position 0. -/
def squeezeW (x : T3) : List (List ℚ) := x.map (·.map fun r => r.getD 0 0)

/-- Shallow embedding of `XConv.forward` (src/torch3d/nn/conv.py:47-68)
on one batch entry (the torch code is batched, but every step acts
independently per batch element — the explicit `enumerate` stack loops at
lines 51 and 58 — so the embedding is per entry; the returned first
component `q` of the source is left implicit). -/
def xconvForwardEntry (p : XConvP) (kernel dil : ℕ) (pts q : List Vec3)
    (feat : Option (List (List ℚ))) : List (List ℚ) :=
  squeezeW (xconvFinal p (permQKCtoCQK
    (bmm
      (stnMatrices kernel (xconvStn p (permQKCtoCQK
        (relOffsets q (gatherPts pts (xconvIndices kernel dil pts q))))))
      (match feat with
       | none => permCQKtoQKC (xconvMlp p (permQKCtoCQK
           (relOffsets q (gatherPts pts (xconvIndices kernel dil pts q)))))
       | some f => catLast
           (permCQKtoQKC (xconvMlp p (permQKCtoCQK
             (relOffsets q (gatherPts pts (xconvIndices kernel dil pts q))))))
           (gatherRows (transpose2 f) (xconvIndices kernel dil pts q))))))

/-- Modelled from the spec: `torch3d.nn.functional.ball_point` is
repository code not under src/; per the specification it is the
radius-bounded neighbor-search collaborator returning, for each query, up
to `k` indices of points within `radius` (the padding policy when fewer
exist is explicitly delegated/unspecified). -/
def ballPoint (pts : List Vec3) (qp : Vec3) (radius : ℚ) (k : ℕ) : List ℕ :=
  ((List.range pts.length).filter fun i =>
    decide (sqDist (pts.getD i v3zero) qp ≤ radius ^ 2)).take k

/-- The maximum of a list of rationals (0 on the empty list, which pooling
never passes). -/
def listMax : List ℚ → ℚ
  | [] => 0
  | a :: t => t.foldl max a

/-- One row of `nn.MaxPool2d([1, k])`: windows of width `k` with stride
`k`; no output when the row is shorter than the window (torch raises
there). -/
def maxPoolRow (k : ℕ) (r : List ℚ) : List ℚ :=
  (List.range (if k ≤ r.length ∧ 0 < k then (r.length - k) / k + 1 else 0)).map
    fun w => listMax ((List.range k).map fun j => r.getD (w * k + j) 0)

/-- `nn.MaxPool2d([1, k])` on one batch entry: pools along the width axis
only. -/
def maxPool2dW (k : ℕ) (x : T3) : T3 := x.map (·.map (maxPoolRow k))

/-- The state of one `SetAbstraction` layer
(src/torch3d/nn/conv.py:71-85): the conv+bn stages built from the mlp
channel list, and the neighbor cap `k` shared by the ball query and the
max-pool window (`none` — the constructor default — makes the forward
call raise). -/
structure SAParams where
  convs : List (Conv2dP × BN2dP)
  k : Option ℕ

/-- `SetAbstraction.mlp`: the sequence of conv+bn+relu stages. -/
def saMlp (convs : List (Conv2dP × BN2dP)) (x : T3) : T3 :=
  convs.foldl (fun acc l => relu2d (bn2d l.2 (conv2d l.1 acc))) x

/-- The global-mode neighborhood tensor of `SetAbstraction.forward`
(src/torch3d/nn/conv.py:93-94, 99-101): the raw coordinates of the whole
point set as a single pseudo-query row (`p.unsqueeze(1)`), with raw
features appended when given (`x.permute(0,2,1).unsqueeze(1)`), and no
query-offset subtraction. -/
def globalNbr (pts : List Vec3) (feat : Option (List (List ℚ))) : T3 :=
  match feat with
  | none => [pts.map fun v => [v.1, v.2.1, v.2.2]]
  | some f => catLast [pts.map fun v => [v.1, v.2.1, v.2.2]] [transpose2 f]

/-- Shallow embedding of `SetAbstraction.forward`
(src/torch3d/nn/conv.py:87-105) on one batch entry, up to the max-pool
(the trailing `squeeze(3)` drops the width axis exactly when its extent
is 1 and is pure shape bookkeeping).  `none` models the TypeError raised
when the layer was built with `k=None`.  Local mode gathers ball-query
neighborhoods and subtracts query offsets; global mode feeds the raw
whole-point-set tensor. -/
def saForwardEntry (lay : SAParams) (radius : Option ℚ) (pts q : List Vec3)
    (feat : Option (List (List ℚ))) : Option T3 :=
  match lay.k with
  | none => none
  | some k =>
    match radius with
    | some r =>
      let idx := q.map fun qp => ballPoint pts qp r k
      let xhat := relOffsets q (gatherPts pts idx)
      let xhat2 := match feat with
        | none => xhat
        | some f => catLast xhat (gatherRows (transpose2 f) idx)
      some (maxPool2dW k (saMlp lay.convs (permQKCtoCQK xhat2)))
    | none =>
      some (maxPool2dW k (saMlp lay.convs (permQKCtoCQK (globalNbr pts feat))))

/-- Stateful call of `XConv.forward`: the layer owns its parameters; the
call returns the output together with the (unchanged, eval-mode) state. -/
def xconvForwardS (p : XConvP) (kernel dil : ℕ) (pts q : List Vec3)
    (feat : Option (List (List ℚ))) :
    (List Vec3 × List (List ℚ)) × XConvP :=
  ((q, xconvForwardEntry p kernel dil pts q feat), p)

/-- Stateful call of `SetAbstraction.forward`. -/
def saForwardS (lay : SAParams) (radius : Option ℚ) (pts q : List Vec3)
    (feat : Option (List (List ℚ))) :
    (List Vec3 × Option T3) × SAParams :=
  ((q, saForwardEntry lay radius pts q feat), lay)

/-- Uniform tensor shape: `C` channels of `H` rows of `W` entries. -/
def shape3 (x : T3) (C H W : ℕ) : Prop :=
  x.length = C ∧ (∀ ch ∈ x, ch.length = H) ∧ ∀ ch ∈ x, ∀ r ∈ ch, r.length = W

/-- Dimension facts about one convolution: output channels and the two
kernel extents (all the source's convolutions have kernel height 1). -/
def convDims (c : Conv2dP) (co k2 : ℕ) : Prop :=
  c.weight.length = co ∧ convKh c = 1 ∧ convKw c = k2

/-- The weight dimensions `XConv.__init__` gives its convolutions, with
`mid = out_channels // 4` as in the source. -/
def xconvWf (p : XConvP) (outC mid kernel : ℕ) : Prop :=
  convDims p.mlpC1 mid 1 ∧ convDims p.mlpC2 mid 1 ∧
  convDims p.stnC1 (kernel ^ 2) kernel ∧ convDims p.stnC2 (kernel ^ 2) 1 ∧
  convDims p.stnC3 (kernel ^ 2) 1 ∧ convDims p.convC outC kernel

instance (c : Conv2dP) (co k2 : ℕ) : Decidable (convDims c co k2) := by
  unfold convDims
  infer_instance

instance (p : XConvP) (outC mid kernel : ℕ) :
    Decidable (xconvWf p outC mid kernel) := by
  unfold xconvWf
  infer_instance

/-- Concrete all-zero `XConv` parameters for `in_channels=0`,
`out_channels=4` (so `mid_channels=1`), `kernel_size=1`: used to exhibit
the output layout on a one-point, one-query input. -/
def xconvPEx : XConvP :=
  ⟨⟨[[[[0]], [[0]], [[0]]]], [0]⟩, ⟨[0], [0]⟩,
   ⟨[[[[0]]]], [0]⟩, ⟨[0], [0]⟩,
   ⟨[[[[0]], [[0]], [[0]]]], [0]⟩, ⟨[0], [0]⟩,
   ⟨[[[[0]]]], [0]⟩, ⟨[0], [0]⟩,
   ⟨[[[[0]]]], [0]⟩,
   ⟨[[[[0]]], [[[0]]], [[[0]]], [[[0]]]], [0, 0, 0, 0]⟩,
   ⟨[0, 0, 0, 0], [0, 0, 0, 0]⟩⟩

/-- A one-point cloud used as both points and queries in examples. -/
def ptsEx3 : List Vec3 := [(0, 0, 0)]

/-- A two-point cloud for the SetAbstraction examples. -/
def ptsPair : List Vec3 := [(0, 0, 0), (0, 0, 0)]

/-- A global-mode SetAbstraction layer (no conv stages) with pool cap 1. -/
def saLayEx1 : SAParams := ⟨[], some 1⟩

/-- A global-mode SetAbstraction layer (no conv stages) with pool cap 2. -/
def saLayEx2 : SAParams := ⟨[], some 2⟩

-- ===== THEOREMS =====

/-- C1: `lidar_to_rect` returns exactly as many points as it was given, and
the intensity (fourth) column of every point equals the corresponding
input intensity. -/
theorem rectify_preserves_count_and_intensity (calib : Calib) (lidar : List Point4) :
    (lidar_to_rect calib lidar).length = lidar.length ∧
    ∀ i, i < lidar.length →
      ((lidar_to_rect calib lidar).getD i pt0).2.2.2 = (lidar.getD i pt0).2.2.2 := by
  constructor
  · simp [lidar_to_rect]
  · intro i hi
    simp only [lidar_to_rect, List.getD_eq_getElem?_getD, List.getElem?_map]
    rcases List.getElem?_eq_some_iff.mpr ⟨hi, rfl⟩ with h
    rw [h]
    rfl

/-- Witness for C1 at a concrete two-point cloud and calibration. -/
theorem rectify_preserves_count_and_intensity_witness :
    ((lidar_to_rect ⟨0, 0, 0, 0, 1, idVeloToCam, 0⟩
        [(1, 2, 3, 7), (4, 5, 6, 9)]).getD 1 pt0).2.2.2 =
      (([(1, 2, 3, 7), (4, 5, 6, 9)] : List Point4).getD 1 pt0).2.2.2 :=
  (rectify_preserves_count_and_intensity ⟨0, 0, 0, 0, 1, idVeloToCam, 0⟩
    [(1, 2, 3, 7), (4, 5, 6, 9)]).2 1 (by decide)

/-- Applying the 3×4 identity-with-zero-translation matrix to a homogeneous
vector projects it back to its first three coordinates. -/
theorem idVeloToCam_mulVec (x y z : ℚ) :
    Matrix.mulVec idVeloToCam ![x, y, z, 1] = ![x, y, z] := by
  funext i
  fin_cases i <;>
    simp [idVeloToCam, Matrix.mulVec, Matrix.dotProduct, Fin.sum_univ_four]

/-- C2: the row-vector product `xyzw · (velo_to_camᵀ · R0ᵀ)` computed by
`lidar_to_rect` equals applying `velo_to_cam` first and `R0` second to the
homogeneous column vector; consequently, with `velo_to_cam` the 3×4
identity (zero translation) and `R0 = 1`, rectification is the identity on
the point cloud (coordinates and intensities unchanged). -/
theorem rectify_is_R0_after_velo (calib : Calib) (lidar : List Point4) :
    lidar_to_rect calib lidar = rectifyRef calib lidar ∧
    (calib.velo_to_cam = idVeloToCam → calib.R0 = 1 →
      lidar_to_rect calib lidar = lidar) := by
  have key : lidar_to_rect calib lidar = rectifyRef calib lidar := by
    unfold lidar_to_rect rectifyRef
    refine List.map_congr_left fun pt _ => ?_
    simp only [← Matrix.transpose_mul, Matrix.vecMul_transpose, Matrix.mulVec_mulVec]
  refine ⟨key, fun hv hr => ?_⟩
  rw [key]
  unfold rectifyRef
  conv_rhs => rw [← List.map_id lidar]
  refine List.map_congr_left fun pt _ => ?_
  simp only [hv, hr, idVeloToCam_mulVec, Matrix.one_mulVec]
  simp [Matrix.cons_val_zero, Matrix.cons_val_one, Matrix.head_cons]

/-- Witness for C2: with identity calibration a concrete cloud is returned
unchanged. -/
theorem rectify_is_R0_after_velo_witness :
    lidar_to_rect ⟨0, 0, 0, 0, 1, idVeloToCam, 0⟩ [(1, 2, 3, 7), (-4, 5, -6, 9)] =
      [(1, 2, 3, 7), (-4, 5, -6, 9)] :=
  (rectify_is_R0_after_velo ⟨0, 0, 0, 0, 1, idVeloToCam, 0⟩
    [(1, 2, 3, 7), (-4, 5, -6, 9)]).2 rfl rfl

/-- Chunking into groups of 4 yields ⌊n/4⌋ groups. -/
theorem length_chunk4 {α : Type} : ∀ l : List α, (chunk4 l).length = l.length / 4
  | [] => by simp [chunk4]
  | [_] => by simp [chunk4]
  | [_, _] => by simp [chunk4]
  | [_, _, _] => by simp [chunk4]
  | _ :: _ :: _ :: _ :: t => by
    rw [chunk4, List.length_cons, length_chunk4 t]
    simp only [List.length_cons]
    omega

/-- C3 (amended): reading the point-cloud binary fails exactly when the
number of complete 4-byte floats in the file, ⌊bytes/4⌋, is not a multiple
of 4 (trailing bytes that do not form a whole float are silently ignored
by the read); restricted to files whose byte count is a multiple of the
float size 4, this coincides with the claimed criterion "byte count not a
multiple of 16". -/
theorem getLidar_fails_iff (bytes : List ℕ) :
    (getLidarBytes bytes = none ↔ (bytes.length / 4) % 4 ≠ 0) ∧
    (bytes.length % 4 = 0 →
      (getLidarBytes bytes = none ↔ bytes.length % 16 ≠ 0)) := by
  have h4 : (chunk4 bytes).length = bytes.length / 4 := length_chunk4 bytes
  constructor
  · unfold getLidarBytes npReshapeRows4
    rw [h4]
    split <;> simp_all
  · intro hdvd
    unfold getLidarBytes npReshapeRows4
    rw [h4]
    constructor
    · intro h
      rcases Nat.eq_zero_or_pos (bytes.length % 16) with h16 | h16
      · exfalso
        split at h
        · exact Option.noConfusion h
        · omega
      · omega
    · intro h16
      split
      · omega
      · rfl

/-- Witness for C3's conditional part at a concrete 16-byte file. -/
theorem getLidar_fails_iff_witness :
    (16 : ℕ) % 4 = 0 ∧
      (getLidarBytes (List.replicate 16 0) = none ↔
        (List.replicate (16 : ℕ) (0 : ℕ)).length % 16 ≠ 0) :=
  ⟨by decide, (getLidar_fails_iff (List.replicate 16 0)).2 (by decide)⟩

/-- C3 counterexample: a 17-byte file has a byte count that is not a
multiple of 16, yet the read succeeds (numpy ignores the trailing byte and
the remaining 4 floats reshape into one row), contradicting the claim that
the read fails if and only if the byte count is not a multiple of 16. -/
theorem getLidar_seventeen_bytes_succeeds :
    getLidarBytes (List.replicate 17 0) ≠ none ∧ (17 : ℕ) % 16 ≠ 0 := by
  constructor
  · decide
  · decide

/-- A digit character is never the dot character. -/
theorem isDigit_beq_dot (c : Char) (h : c.isDigit = true) : (c == '.') = false := by
  cases hc : c == '.'
  · rfl
  · exfalso
    rw [beq_iff_eq] at hc
    subst hc
    exact absurd h (by decide)

/-- If the first `n` characters are digits and the character at position
`n` is a dot, then taking characters up to the first dot takes exactly the
first `n` characters. -/
theorem takeWhile_not_dot_eq_take :
    ∀ (n : ℕ) (cs : List Char), (cs.take n).all (·.isDigit) = true →
      cs.getD n ' ' = '.' →
      cs.takeWhile (fun c => !(c == '.')) = cs.take n
  | 0, [], _, hd => by simp at hd
  | 0, c :: t, _, hd => by
    rw [List.getD_cons_zero] at hd
    subst hd
    simp [List.takeWhile_cons]
  | n + 1, [], _, hd => by simp at hd
  | n + 1, c :: t, hall, hd => by
    rw [List.take_succ_cons, List.all_cons, Bool.and_eq_true] at hall
    rw [List.getD_cons_succ] at hd
    simp [List.takeWhile_cons, List.take_succ_cons, isDigit_beq_dot c hall.1,
      takeWhile_not_dot_eq_take n t hall.2 hd]

/-- A filename of the exact `{id:06d}.bin` form is one that matches the
code's broad regex and moreover has a literal dot in 7th position. -/
theorem properForm_eq_match_and_dot (s : String) :
    properForm s = (reMatch6bin s && (s.toList.getD 6 ' ' == '.')) := by
  unfold properForm reMatch6bin
  rw [Bool.and_assoc, Bool.and_comm (s.toList.getD 6 ' ' == '.'), ← Bool.and_assoc]

/-- For a filename matching the broad regex whose 7th character is a
literal dot, the prefix before the dot consists of the 6 leading digits,
so Python `int` parses it to the frame identifier. -/
theorem pyIntDigits_beforeDot (s : String) (hm : reMatch6bin s = true)
    (hdot : s.toList.getD 6 ' ' = '.') :
    pyIntDigits (beforeDot s) = some (idOf s) := by
  have hm' := hm
  unfold reMatch6bin at hm'
  rw [Bool.and_eq_true, Bool.and_eq_true] at hm'
  obtain ⟨⟨hlen, hdig⟩, _⟩ := hm'
  have hbd : beforeDot s = s.toList.take 6 :=
    takeWhile_not_dot_eq_take 6 s.toList hdig hdot
  have hlen10 : s.toList.length = 10 := by
    rwa [beq_iff_eq] at hlen
  have hne : s.toList.take 6 ≠ [] := by
    intro hempty
    have hl := congrArg List.length hempty
    rw [List.length_take, hlen10] at hl
    simp at hl
  have hsome : pyIntDigits (beforeDot s) ≠ none := by
    unfold pyIntDigits
    rw [hbd, if_pos ⟨hne, hdig⟩]
    exact fun hc => Option.noConfusion hc
  cases hp : pyIntDigits (beforeDot s) with
  | none => exact absurd hp hsome
  | some v => simp [idOf, hp]

/-- A failure-propagating map whose body succeeds on every element
returns the mapped list. -/
theorem optMapM_eq_some_map {α β : Type} (f : α → Option β) (g : α → β) :
    ∀ l : List α, (∀ a ∈ l, f a = some (g a)) → optMapM f l = some (l.map g)
  | [], _ => rfl
  | a :: t, h => by
    rw [optMapM, h a (List.mem_cons_self a t),
      optMapM_eq_some_map f g t (fun b hb => h b (List.mem_cons_of_mem a hb))]
    rfl

/-- C7 (amended): when every filename matching the code's regex
`^[0-9]{6}.bin$` (whose unescaped dot matches any single character) in
fact has a literal dot in 7th position — i.e. is of the true
`{id:06d}.bin` form — the frame list is exactly the integer identifiers
of those filenames, in sorted order, and every other filename is silently
excluded.  (A filename matching the regex with a different 7th character
instead aborts construction with a ValueError; see the counterexample.) -/
theorem framelist_sorted_ids (names : List String)
    (h : ∀ s ∈ names, reMatch6bin s = true → s.toList.getD 6 ' ' = '.') :
    mkFramelist names =
      some (List.insertionSort (· ≤ ·) ((names.filter properForm).map idOf)) ∧
    List.Sorted (· ≤ ·)
      (List.insertionSort (· ≤ ·) ((names.filter properForm).map idOf)) ∧
    List.Perm
      (List.insertionSort (· ≤ ·) ((names.filter properForm).map idOf))
      ((names.filter properForm).map idOf) := by
  have hfe : names.filter reMatch6bin = names.filter properForm := by
    refine List.filter_congr fun s hs => ?_
    rw [properForm_eq_match_and_dot]
    by_cases hr : reMatch6bin s = true
    · rw [hr, Bool.true_and, beq_iff_eq.mpr (h s hs hr)]
    · have hr' : reMatch6bin s = false := by
        cases hv : reMatch6bin s
        · rfl
        · exact absurd hv hr
      rw [hr', Bool.false_and]
  refine ⟨?_, List.sorted_insertionSort _ _, List.perm_insertionSort _ _⟩
  unfold mkFramelist
  rw [hfe, optMapM_eq_some_map (fun s => pyIntDigits (beforeDot s)) idOf _ ?_]
  · rfl
  · intro s hs
    rw [List.mem_filter, properForm_eq_match_and_dot, Bool.and_eq_true] at hs
    exact pyIntDigits_beforeDot s hs.2.1 (beq_iff_eq.mp hs.2.2)

/-- Witness for C7 at a concrete directory listing: ids come out sorted,
a non-matching name is skipped without error. -/
theorem framelist_sorted_ids_witness :
    mkFramelist ["000002.bin", "000001.bin", "junk.txt"] =
      some (List.insertionSort (· ≤ ·)
        ((["000002.bin", "000001.bin", "junk.txt"].filter properForm).map idOf)) :=
  (framelist_sorted_ids ["000002.bin", "000001.bin", "junk.txt"] (by decide)).1

/-- C7 counterexample: the filename `000001xbin` is not of the
`{id:06d}.bin` form, so the claim says it is silently excluded (frame
list built with no error and no entry); but it matches the code's regex
`^[0-9]{6}.bin$` (unescaped dot), and `int("000001xbin")` then raises a
ValueError, so construction fails instead of returning the empty list. -/
theorem framelist_not_silent_on_regex_artifact :
    mkFramelist ["000001xbin"] = none ∧ properForm "000001xbin" = false := by
  constructor
  · decide
  · decide

/-- Python indexing succeeds below the length, returning the `getD`
value. -/
theorem pyGet_lt {α : Type} (xs : List α) (i : ℕ) (d : α) (h : i < xs.length) :
    pyGet xs i = some (xs.getD i d) := by
  unfold pyGet
  rw [List.getElem?_eq_getElem h, List.getD_eq_getElem?_getD, List.getElem?_eq_getElem h]
  rfl

/-- An option known to hold a value is `some` of its default-read. -/
theorem eq_some_getD {α : Type} (o : Option α) (d : α) (h : o.isSome = true) :
    o = some (o.getD d) := by
  cases o with
  | none => exact absurd h (by simp)
  | some v => rfl

/-- A failure-propagating map succeeds only if its body succeeds on every
element. -/
theorem optMapM_isSome_of_mem {α β : Type} (f : α → Option β) :
    ∀ (l : List α) (ys : List β), optMapM f l = some ys →
      ∀ a ∈ l, (f a).isSome = true
  | [], _, _, a, ha => absurd ha (List.not_mem_nil a)
  | x :: t, ys, h, a, ha => by
    rw [optMapM] at h
    cases hfx : f x with
    | none => simp [hfx] at h
    | some b =>
      rcases List.mem_cons.mp ha with rfl | ha'
      · simp [hfx]
      · simp only [hfx, Option.some_bind] at h
        cases hmt : optMapM f t with
        | none => simp [hmt] at h
        | some bs => exact optMapM_isSome_of_mem f t bs hmt a ha'

/-- Every element of a successful failure-propagating map comes from some
input element. -/
theorem optMapM_mem_exists {α β : Type} (f : α → Option β) :
    ∀ (l : List α) (ys : List β), optMapM f l = some ys →
      ∀ y ∈ ys, ∃ a ∈ l, f a = some y
  | [], ys, h, y, hy => by
    rw [optMapM] at h
    injection h with h
    subst h
    exact absurd hy (List.not_mem_nil y)
  | x :: t, ys, h, y, hy => by
    rw [optMapM] at h
    cases hfx : f x with
    | none => simp [hfx] at h
    | some b =>
      simp only [hfx, Option.some_bind] at h
      cases hmt : optMapM f t with
      | none => simp [hmt] at h
      | some bs =>
        simp only [hmt, Option.some_bind] at h
        injection h with h
        subst h
        rcases List.mem_cons.mp hy with rfl | hy'
        · exact ⟨x, List.mem_cons_self x t, hfx⟩
        · obtain ⟨a, ha, hfa⟩ := optMapM_mem_exists f t bs hmt y hy'
          exact ⟨a, List.mem_cons_of_mem x ha, hfa⟩

/-- A successful failure-propagating map preserves the length. -/
theorem optMapM_length {α β : Type} (f : α → Option β) :
    ∀ (l : List α) (ys : List β), optMapM f l = some ys → ys.length = l.length
  | [], ys, h => by
    rw [optMapM] at h
    injection h with h
    subst h
    rfl
  | x :: t, ys, h => by
    rw [optMapM] at h
    cases hfx : f x with
    | none => simp [hfx] at h
    | some b =>
      simp only [hfx, Option.some_bind] at h
      cases hmt : optMapM f t with
      | none => simp [hmt] at h
      | some bs =>
        simp only [hmt, Option.some_bind] at h
        injection h with h
        subst h
        simp [optMapM_length f t bs hmt]

/-- A list of length 4 is a literal 4-element list. -/
theorem eq_four_of_length {α : Type} :
    ∀ r : List α, r.length = 4 → ∃ a b c d, r = [a, b, c, d]
  | [a, b, c, d], _ => ⟨a, b, c, d, rfl⟩
  | [], h => by simp at h
  | [_], h => by simp at h
  | [_, _], h => by simp at h
  | [_, _, _], h => by simp at h
  | _ :: _ :: _ :: _ :: _ :: _, h => by simp at h

/-- A list of length 3 is a literal 3-element list. -/
theorem eq_three_of_length {α : Type} :
    ∀ r : List α, r.length = 3 → ∃ a b c, r = [a, b, c]
  | [a, b, c], _ => ⟨a, b, c, rfl⟩
  | [], h => by simp at h
  | [_], h => by simp at h
  | [_, _], h => by simp at h
  | _ :: _ :: _ :: _ :: _, h => by simp at h

/-- Chunking undoes flattening of uniform width-4 rows. -/
theorem chunk4_flatten {α : Type} :
    ∀ rows : List (List α), (∀ r ∈ rows, r.length = 4) →
      chunk4 rows.flatten = rows
  | [], _ => rfl
  | r :: rs, h => by
    obtain ⟨a, b, c, d, rfl⟩ := eq_four_of_length r (h r (List.mem_cons_self r rs))
    show chunk4 (a :: b :: c :: d :: rs.flatten) = _
    rw [chunk4, chunk4_flatten rs fun x hx => h x (List.mem_cons_of_mem _ hx)]

/-- Chunking undoes flattening of uniform width-3 rows. -/
theorem chunk3_flatten {α : Type} :
    ∀ rows : List (List α), (∀ r ∈ rows, r.length = 3) →
      chunk3 rows.flatten = rows
  | [], _ => rfl
  | r :: rs, h => by
    obtain ⟨a, b, c, rfl⟩ := eq_three_of_length r (h r (List.mem_cons_self r rs))
    show chunk3 (a :: b :: c :: rs.flatten) = _
    rw [chunk3, chunk3_flatten rs fun x hx => h x (List.mem_cons_of_mem _ hx)]

/-- Flattening uniform-width rows multiplies the length. -/
theorem length_flatten_uniform {α : Type} (k : ℕ) :
    ∀ rows : List (List α), (∀ r ∈ rows, r.length = k) →
      rows.flatten.length = k * rows.length
  | [], _ => by simp
  | r :: rs, h => by
    rw [List.flatten_cons, List.length_append, h r (List.mem_cons_self r rs),
      length_flatten_uniform k rs fun x hx => h x (List.mem_cons_of_mem _ hx),
      List.length_cons]
    ring

/-- Numpy accepts a non-ragged list of rows as-is. -/
theorem npArray2_of_uniform {α : Type} (k : ℕ) (rows : List (List α))
    (h : ∀ r ∈ rows, r.length = k) : npArray2 rows = some rows := by
  cases rows with
  | nil => rfl
  | cons r0 rs =>
    unfold npArray2
    rw [if_pos]
    refine List.all_eq_true.mpr fun r hr => ?_
    have h0 : r0.length = k := h r0 (List.mem_cons_self r0 rs)
    have hrk : r.length = k := h r hr
    simp [List.headD, h0, hrk]

/-- Numpy returns the rows unchanged whenever it accepts them. -/
theorem npArray2_eq_some {α : Type} (rows ys : List (List α))
    (h : npArray2 rows = some ys) : ys = rows := by
  unfold npArray2 at h
  split at h
  · injection h with h
    exact h.symm
  · exact Option.noConfusion h

/-- Reshaping the flattening of uniform width-4 rows returns the rows. -/
theorem npReshapeRows4_uniform {α : Type} (rows : List (List α))
    (h : ∀ r ∈ rows, r.length = 4) : npReshapeRows4 rows.flatten = some rows := by
  unfold npReshapeRows4
  rw [length_flatten_uniform 4 rows h, if_pos (by omega), chunk4_flatten rows h]

/-- Reshaping the flattening of uniform width-3 rows returns the rows. -/
theorem npReshapeRows3_uniform {α : Type} (rows : List (List α))
    (h : ∀ r ∈ rows, r.length = 3) : npReshapeRows3 rows.flatten = some rows := by
  unfold npReshapeRows3
  rw [length_flatten_uniform 3 rows h, if_pos (by omega), chunk3_flatten rows h]

/-- The length of a Python slice within bounds. -/
theorem length_pySlice {α : Type} (a b : ℕ) (xs : List α) :
    (pySlice a b xs).length = min (b - a) (xs.length - a) := by
  simp [pySlice]

/-- Every element of a Python slice is an element of the list at an index
inside the slice bounds. -/
theorem mem_pySlice (xs : List String) (a b : ℕ) (v : String)
    (h : v ∈ pySlice a b xs) :
    ∃ i, a ≤ i ∧ i < b ∧ i < xs.length ∧ v = xs.getD i "" := by
  unfold pySlice at h
  obtain ⟨j, hj, hv⟩ := List.mem_iff_getElem.mp h
  rw [List.length_take, List.length_drop] at hj
  have hj1 : j < b - a := lt_of_lt_of_le hj (min_le_left _ _)
  have hj2 : j < xs.length - a := lt_of_lt_of_le hj (min_le_right _ _)
  refine ⟨a + j, by omega, by omega, by omega, ?_⟩
  rw [← hv, List.getElem_take, List.getElem_drop,
    List.getD_eq_getElem?_getD, List.getElem?_eq_getElem (by omega)]
  rfl

/-- C8 (amended): label parsing fails whenever any line has fewer than 15
single-space-separated tokens (equivalently: success forces at least 15
tokens per line, and then all eight result sequences have length equal to
the number of lines); and for every file in which each line has at least
15 tokens AND the numeric fields parse (tokens 2, 4, 5–15 as floats,
token 3 as an integer — the unconditional success asserted by the claim
fails, see the counterexample), parsing succeeds and assigns the
fixed-position fields. -/
theorem label_parse_spec :
    (∀ (lines : List String) (lab : KittiLabel),
      parse_kitti_label lines = some lab →
        (∀ l ∈ lines, 15 ≤ (tokensOf l).length) ∧
        lab.cls.length = lines.length ∧ lab.truncated.length = lines.length ∧
        lab.occluded.length = lines.length ∧ lab.alpha.length = lines.length ∧
        lab.bbox.length = lines.length ∧ lab.size.length = lines.length ∧
        lab.center.length = lines.length ∧ lab.yaw.length = lines.length) ∧
    (∀ lines : List String, (∀ l ∈ lines, lineOK l) →
      parse_kitti_label lines = some
        { cls := lines.map fun l => (tokensOf l).getD 0 ""
          truncated := lines.map fun l => floatVal ((tokensOf l).getD 1 "")
          occluded := lines.map fun l => intVal ((tokensOf l).getD 2 "")
          alpha := lines.map fun l => floatVal ((tokensOf l).getD 3 "")
          bbox := lines.map fun l => (pySlice 4 8 (tokensOf l)).map floatVal
          size := lines.map fun l => (pySlice 8 11 (tokensOf l)).map floatVal
          center := lines.map fun l => (pySlice 11 14 (tokensOf l)).map floatVal
          yaw := lines.map fun l => floatVal ((tokensOf l).getD 14 "") }) := by
  constructor
  · intro lines lab h
    unfold parse_kitti_label at h
    simp only [Option.bind_eq_some, Option.pure_def, Option.some.injEq] at h
    obtain ⟨cls, hcls, truncated, htr, occluded, hocc, alpha, hal,
      bbox0, hb0, bbox1, hb1, size0, hs0, size1, hs1,
      center0, hc0, center1, hc1, yaw, hyaw, bbox, hb, size, hs,
      center, hc, hpure⟩ := h
    have h15 : ∀ l ∈ lines, 15 ≤ (tokensOf l).length := by
      intro l hl
      have hx := optMapM_isSome_of_mem _ _ _ hyaw (tokensOf l)
        (List.mem_map_of_mem tokensOf hl)
      cases hg : pyGet (tokensOf l) 14 with
      | none => rw [hg] at hx; simp at hx
      | some v =>
        have : 14 < (tokensOf l).length := by
          by_contra hlt
          rw [pyGet, List.getElem?_eq_none (by omega)] at hg
          exact Option.noConfusion hg
        omega
    have huni4 : ∀ r ∈ bbox0, r.length = 4 := by
      intro r hr
      obtain ⟨x, hx, hfx⟩ := optMapM_mem_exists _ _ _ hb0 r hr
      obtain ⟨l, hl, rfl⟩ := List.mem_map.mp hx
      have := optMapM_length _ _ _ hfx
      rw [this, length_pySlice]
      have := h15 l hl
      omega
    have hunis : ∀ r ∈ size0, r.length = 3 := by
      intro r hr
      obtain ⟨x, hx, hfx⟩ := optMapM_mem_exists _ _ _ hs0 r hr
      obtain ⟨l, hl, rfl⟩ := List.mem_map.mp hx
      have := optMapM_length _ _ _ hfx
      rw [this, length_pySlice]
      have := h15 l hl
      omega
    have hunic : ∀ r ∈ center0, r.length = 3 := by
      intro r hr
      obtain ⟨x, hx, hfx⟩ := optMapM_mem_exists _ _ _ hc0 r hr
      obtain ⟨l, hl, rfl⟩ := List.mem_map.mp hx
      have := optMapM_length _ _ _ hfx
      rw [this, length_pySlice]
      have := h15 l hl
      omega
    have hb1e : bbox1 = bbox0 := npArray2_eq_some _ _ hb1
    have hs1e : size1 = size0 := npArray2_eq_some _ _ hs1
    have hc1e : center1 = center0 := npArray2_eq_some _ _ hc1
    have hbfin : bbox = bbox0 := by
      rw [hb1e, npReshapeRows4_uniform bbox0 huni4] at hb
      injection hb with hb
      exact hb.symm
    have hsfin : size = size0 := by
      rw [hs1e, npReshapeRows3_uniform size0 hunis] at hs
      injection hs with hs
      exact hs.symm
    have hcfin : center = center0 := by
      rw [hc1e, npReshapeRows3_uniform center0 hunic] at hc
      injection hc with hc
      exact hc.symm
    have hlen : (lines.map tokensOf).length = lines.length := List.length_map _ _
    subst hpure
    refine ⟨h15, ?_, ?_, ?_, ?_, ?_, ?_, ?_, ?_⟩
    · show cls.length = lines.length
      rw [optMapM_length _ _ _ hcls, hlen]
    · show truncated.length = lines.length
      rw [optMapM_length _ _ _ htr, hlen]
    · show occluded.length = lines.length
      rw [optMapM_length _ _ _ hocc, hlen]
    · show alpha.length = lines.length
      rw [optMapM_length _ _ _ hal, hlen]
    · show bbox.length = lines.length
      rw [hbfin, optMapM_length _ _ _ hb0, hlen]
    · show size.length = lines.length
      rw [hsfin, optMapM_length _ _ _ hs0, hlen]
    · show center.length = lines.length
      rw [hcfin, optMapM_length _ _ _ hc0, hlen]
    · show yaw.length = lines.length
      rw [optMapM_length _ _ _ hyaw, hlen]
  · intro lines hok
    have h15 : ∀ l ∈ lines, 15 ≤ (tokensOf l).length := fun l hl => (hok l hl).1
    have hcls : optMapM (fun x => pyGet x 0) (lines.map tokensOf) =
        some ((lines.map tokensOf).map fun x => x.getD 0 "") := by
      refine optMapM_eq_some_map _ _ _ fun x hx => ?_
      obtain ⟨l, hl, rfl⟩ := List.mem_map.mp hx
      exact pyGet_lt _ 0 "" (by have := h15 l hl; omega)
    have htr : optMapM (fun x => (pyGet x 1).bind pyFloat) (lines.map tokensOf) =
        some ((lines.map tokensOf).map fun x => floatVal (x.getD 1 "")) := by
      refine optMapM_eq_some_map _ _ _ fun x hx => ?_
      obtain ⟨l, hl, rfl⟩ := List.mem_map.mp hx
      rw [pyGet_lt _ 1 "" (by have := h15 l hl; omega), Option.some_bind]
      exact eq_some_getD _ 0 (hok l hl).2.1
    have hocc : optMapM (fun x => (pyGet x 2).bind pyIntZ) (lines.map tokensOf) =
        some ((lines.map tokensOf).map fun x => intVal (x.getD 2 "")) := by
      refine optMapM_eq_some_map _ _ _ fun x hx => ?_
      obtain ⟨l, hl, rfl⟩ := List.mem_map.mp hx
      rw [pyGet_lt _ 2 "" (by have := h15 l hl; omega), Option.some_bind]
      exact eq_some_getD _ 0 (hok l hl).2.2.1
    have hal : optMapM (fun x => (pyGet x 3).bind pyFloat) (lines.map tokensOf) =
        some ((lines.map tokensOf).map fun x => floatVal (x.getD 3 "")) := by
      refine optMapM_eq_some_map _ _ _ fun x hx => ?_
      obtain ⟨l, hl, rfl⟩ := List.mem_map.mp hx
      rw [pyGet_lt _ 3 "" (by have := h15 l hl; omega), Option.some_bind]
      exact eq_some_getD _ 0 (hok l hl).2.2.2.1
    have hyaw : optMapM (fun x => (pyGet x 14).bind pyFloat) (lines.map tokensOf) =
        some ((lines.map tokensOf).map fun x => floatVal (x.getD 14 "")) := by
      refine optMapM_eq_some_map _ _ _ fun x hx => ?_
      obtain ⟨l, hl, rfl⟩ := List.mem_map.mp hx
      rw [pyGet_lt _ 14 "" (by have := h15 l hl; omega), Option.some_bind]
      refine eq_some_getD _ 0 ((hok l hl).2.2.2.2 14 ?_)
      rw [List.mem_range'_1]
      omega
    have hsliceOK : ∀ l ∈ lines, ∀ a b : ℕ, 4 ≤ a → b ≤ 15 →
        ∀ v ∈ pySlice a b (tokensOf l), pyFloat v = some (floatVal v) := by
      intro l hl a b ha hb v hv
      obtain ⟨i, hia, hib, _, rfl⟩ := mem_pySlice _ a b v hv
      refine eq_some_getD _ 0 ((hok l hl).2.2.2.2 i ?_)
      rw [List.mem_range'_1]
      omega
    have hb0 : optMapM (fun x => optMapM pyFloat (pySlice 4 8 x)) (lines.map tokensOf) =
        some ((lines.map tokensOf).map fun x => (pySlice 4 8 x).map floatVal) := by
      refine optMapM_eq_some_map _ _ _ fun x hx => ?_
      obtain ⟨l, hl, rfl⟩ := List.mem_map.mp hx
      exact optMapM_eq_some_map _ _ _ (hsliceOK l hl 4 8 (by omega) (by omega))
    have hs0 : optMapM (fun x => optMapM pyFloat (pySlice 8 11 x)) (lines.map tokensOf) =
        some ((lines.map tokensOf).map fun x => (pySlice 8 11 x).map floatVal) := by
      refine optMapM_eq_some_map _ _ _ fun x hx => ?_
      obtain ⟨l, hl, rfl⟩ := List.mem_map.mp hx
      exact optMapM_eq_some_map _ _ _ (hsliceOK l hl 8 11 (by omega) (by omega))
    have hc0 : optMapM (fun x => optMapM pyFloat (pySlice 11 14 x)) (lines.map tokensOf) =
        some ((lines.map tokensOf).map fun x => (pySlice 11 14 x).map floatVal) := by
      refine optMapM_eq_some_map _ _ _ fun x hx => ?_
      obtain ⟨l, hl, rfl⟩ := List.mem_map.mp hx
      exact optMapM_eq_some_map _ _ _ (hsliceOK l hl 11 14 (by omega) (by omega))
    have huni4 : ∀ r ∈ (lines.map tokensOf).map fun x => (pySlice 4 8 x).map floatVal,
        r.length = 4 := by
      intro r hr
      obtain ⟨x, hx, rfl⟩ := List.mem_map.mp hr
      obtain ⟨l, hl, rfl⟩ := List.mem_map.mp hx
      rw [List.length_map, length_pySlice]
      have := h15 l hl
      omega
    have hunis : ∀ r ∈ (lines.map tokensOf).map fun x => (pySlice 8 11 x).map floatVal,
        r.length = 3 := by
      intro r hr
      obtain ⟨x, hx, rfl⟩ := List.mem_map.mp hr
      obtain ⟨l, hl, rfl⟩ := List.mem_map.mp hx
      rw [List.length_map, length_pySlice]
      have := h15 l hl
      omega
    have hunic : ∀ r ∈ (lines.map tokensOf).map fun x => (pySlice 11 14 x).map floatVal,
        r.length = 3 := by
      intro r hr
      obtain ⟨x, hx, rfl⟩ := List.mem_map.mp hr
      obtain ⟨l, hl, rfl⟩ := List.mem_map.mp hx
      rw [List.length_map, length_pySlice]
      have := h15 l hl
      omega
    unfold parse_kitti_label
    rw [hcls, Option.some_bind, htr, Option.some_bind, hocc, Option.some_bind,
      hal, Option.some_bind, hb0, Option.some_bind,
      npArray2_of_uniform 4 _ huni4, Option.some_bind, hs0, Option.some_bind,
      npArray2_of_uniform 3 _ hunis, Option.some_bind, hc0, Option.some_bind,
      npArray2_of_uniform 3 _ hunic, Option.some_bind, hyaw, Option.some_bind,
      npReshapeRows4_uniform _ huni4, Option.some_bind,
      npReshapeRows3_uniform _ hunis, Option.some_bind,
      npReshapeRows3_uniform _ hunic, Option.some_bind]
    simp only [List.map_map, Option.pure_def, Option.some.injEq]
    rfl

/-- Witness for C8: the specification's own example line satisfies the
well-formedness hypothesis and parses to the documented fixed-position
fields. -/
theorem label_parse_spec_witness :
    parse_kitti_label sampleLabelLines =
      some
        { cls := sampleLabelLines.map fun l => (tokensOf l).getD 0 ""
          truncated := sampleLabelLines.map fun l => floatVal ((tokensOf l).getD 1 "")
          occluded := sampleLabelLines.map fun l => intVal ((tokensOf l).getD 2 "")
          alpha := sampleLabelLines.map fun l => floatVal ((tokensOf l).getD 3 "")
          bbox := sampleLabelLines.map fun l => (pySlice 4 8 (tokensOf l)).map floatVal
          size := sampleLabelLines.map fun l => (pySlice 8 11 (tokensOf l)).map floatVal
          center := sampleLabelLines.map fun l => (pySlice 11 14 (tokensOf l)).map floatVal
          yaw := sampleLabelLines.map fun l => floatVal ((tokensOf l).getD 14 "") } :=
  label_parse_spec.2 sampleLabelLines (by decide)

/-- C8 counterexample: a line with exactly 15 tokens whose second token is
not numeric makes parsing fail (`float("x")` raises), contradicting the
claim that parsing succeeds for every file in which all lines have at
least 15 tokens. -/
theorem label_parse_fifteen_tokens_can_fail :
    parse_kitti_label ["A x 0 0 0 0 0 0 0 0 0 0 0 0 0"] = none ∧
    15 ≤ (tokensOf "A x 0 0 0 0 0 0 0 0 0 0 0 0 0").length := by
  constructor
  · decide
  · decide

/-- Python indexing misses exactly outside `[-n, n)`. -/
theorem pyIdx_eq_none_iff {α : Type} (xs : List α) (i : ℤ) :
    pyIdx xs i = none ↔ i < -(xs.length : ℤ) ∨ (xs.length : ℤ) ≤ i := by
  simp only [pyIdx]
  by_cases hneg : i < 0
  · simp only [if_pos hneg]
    by_cases hin : 0 ≤ i + (xs.length : ℤ) ∧ i + (xs.length : ℤ) < (xs.length : ℤ)
    · rw [if_pos hin]
      have hlt : (i + (xs.length : ℤ)).toNat < xs.length := by omega
      rw [List.getElem?_eq_getElem hlt]
      constructor
      · intro h
        exact Option.noConfusion h
      · intro h
        rcases h with h | h <;> omega
    · rw [if_neg hin]
      constructor
      · intro _
        left
        omega
      · intro _
        rfl
  · simp only [if_neg hneg]
    by_cases hin : 0 ≤ i ∧ i < (xs.length : ℤ)
    · rw [if_pos hin]
      have hlt : i.toNat < xs.length := by omega
      rw [List.getElem?_eq_getElem hlt]
      constructor
      · intro h
        exact Option.noConfusion h
      · intro h
        rcases h with h | h <;> omega
    · rw [if_neg hin]
      constructor
      · intro _
        right
        omega
      · intro _
        rfl

/-- Python indexing at a natural index below the length hits that
element. -/
theorem pyIdx_nat (xs : List ℕ) (j : ℕ) (h : j < xs.length) :
    pyIdx xs (j : ℤ) = some (xs.getD j 0) := by
  have h0 : ¬ ((j : ℤ) < 0) := by omega
  simp only [pyIdx, if_neg h0]
  rw [if_pos (by constructor <;> omega)]
  rw [show ((j : ℤ)).toNat = j from by omega]
  rw [List.getElem?_eq_getElem h, List.getD_eq_getElem?_getD,
    List.getElem?_eq_getElem h]
  rfl

/-- A Python-indexing hit returns a list element. -/
theorem pyIdx_mem {α : Type} (xs : List α) (i : ℤ) (a : α)
    (h : pyIdx xs i = some a) : a ∈ xs := by
  simp only [pyIdx] at h
  by_cases hneg : i < 0
  · simp only [if_pos hneg] at h
    by_cases hin : 0 ≤ i + (xs.length : ℤ) ∧ i + (xs.length : ℤ) < (xs.length : ℤ)
    · rw [if_pos hin] at h
      exact List.getElem?_mem h
    · rw [if_neg hin] at h
      exact Option.noConfusion h
  · simp only [if_neg hneg] at h
    by_cases hin : 0 ≤ i ∧ i < (xs.length : ℤ)
    · rw [if_pos hin] at h
      exact List.getElem?_mem h
    · rw [if_neg hin] at h
      exact Option.noConfusion h

/-- C9 (amended): provided every frame's label file parses (for labeled
splits; a label-parse failure raises its own error), `__getitem__` raises
an IndexError exactly when the integer index lies outside `[-n, n)` where
`n` is the number of frames — Python's negative indices count from the
end, so the claimed range `[0, n)` is too narrow — and for every
`0 ≤ i < n` it returns the composite sample of the `i`-th frame
identifier (with the user transform applied to it). -/
theorem getitem_index_spec (env : KittiEnv) (ds : KittiDataset) (i : ℤ)
    (hparse : ds.split = "training" → ∀ fid ∈ ds.framelist,
      (parse_kitti_label (env.labelStore fid)).isSome = true) :
    (getitem env ds i = .error .indexError ↔
      i < -(ds.framelist.length : ℤ) ∨ (ds.framelist.length : ℤ) ≤ i) ∧
    (∀ j : ℕ, j < ds.framelist.length →
      ∃ s, rawSample env ds (ds.framelist.getD j 0) = .ok s ∧
        getitem env ds (j : ℤ) = .ok (applyTf ds.transforms s)) := by
  have hraw : ∀ fid ∈ ds.framelist, ∃ s, rawSample env ds fid = .ok s := by
    intro fid hfid
    unfold rawSample
    by_cases ht : ds.split = "training"
    · rw [if_pos ht]
      have hps := hparse ht fid hfid
      cases hp : parse_kitti_label (env.labelStore fid) with
      | none => exact absurd hps (by rw [hp]; simp)
      | some lab => exact ⟨_, rfl⟩
    · rw [if_neg ht]
      exact ⟨_, rfl⟩
  constructor
  · constructor
    · intro h
      by_contra hrange
      have hsome : pyIdx ds.framelist i ≠ none :=
        fun hnone => hrange ((pyIdx_eq_none_iff _ _).mp hnone)
      cases hp : pyIdx ds.framelist i with
      | none => exact absurd hp hsome
      | some fid =>
        obtain ⟨s, hs⟩ := hraw fid (pyIdx_mem _ _ _ hp)
        unfold getitem at h
        simp only [hp] at h
        rw [hs] at h
        exact Except.noConfusion h
    · intro hout
      unfold getitem
      rw [(pyIdx_eq_none_iff _ _).mpr hout]
  · intro j hj
    have hmem : ds.framelist.getD j 0 ∈ ds.framelist := by
      rw [List.getD_eq_getElem?_getD, List.getElem?_eq_getElem hj]
      exact List.getElem_mem hj
    obtain ⟨s, hs⟩ := hraw _ hmem
    refine ⟨s, hs, ?_⟩
    unfold getitem
    simp only [pyIdx_nat _ j hj, hs]

/-- Witness for C9 at the concrete one-frame test dataset: the
instantiated index characterization and the in-range sample. -/
theorem getitem_index_spec_witness :
    (getitem envEx dsEx 5 = .error .indexError ↔
      (5 : ℤ) < -(dsEx.framelist.length : ℤ) ∨ (dsEx.framelist.length : ℤ) ≤ 5) ∧
    (∀ j : ℕ, j < dsEx.framelist.length →
      ∃ s, rawSample envEx dsEx (dsEx.framelist.getD j 0) = .ok s ∧
        getitem envEx dsEx (j : ℤ) = .ok (applyTf dsEx.transforms s)) :=
  getitem_index_spec envEx dsEx 5
    (fun h => absurd h (by decide))

/-- C9 counterexample: on a one-frame dataset the index `-1` lies outside
the claimed range `[0, 1)`, so the claim requires an IndexError; but
Python indexing wraps negative indices and `__getitem__` returns the last
frame's sample instead. -/
theorem getitem_neg_index_no_indexError :
    getitem envEx dsEx (-1) = .ok (⟨0, [], calib0⟩, none) ∧
    ((-1 : ℤ) < 0 ∨ (1 : ℤ) ≤ -1) := by
  constructor
  · rfl
  · left
    decide

/-- C10: every split string other than "train" and "val" silently resolves
to the "testing" layout: the integrity check then requires only the
image, calibration and point-cloud directories (no label directory), the
constructor raises no error for the unrecognized split name (given those
directories and a clean listing), and `__getitem__` builds every raw
(pre-transform) sample with target `None`. -/
theorem unknown_split_treated_as_test (split : String)
    (hs : split ≠ "train" ∧ split ≠ "val") :
    resolvedSplit split = "testing" ∧
    (∀ env root, checkIntegrity env root (resolvedSplit split) =
      (env.pathExists (pathJoin (pathJoin root "testing") "image_2") &&
       env.pathExists (pathJoin (pathJoin root "testing") "calib") &&
       env.pathExists (pathJoin (pathJoin root "testing") "velodyne"))) ∧
    (∀ env root tf rectified fl,
      checkIntegrity env root "testing" = true →
      mkFramelist env.lidarDirNames = some fl →
      mkDataset env root split tf rectified =
        .ok ⟨root, "testing", tf, rectified, fl⟩) ∧
    (∀ env root tf rectified ds,
      mkDataset env root split tf rectified = .ok ds →
      ∀ fid, ∃ inputs, rawSample env ds fid = .ok (inputs, none)) := by
  have hres : resolvedSplit split = "testing" := by
    unfold resolvedSplit
    rw [if_neg]
    rintro (h | h)
    · exact hs.1 h
    · exact hs.2 h
  refine ⟨hres, ?_, ?_, ?_⟩
  · intro env root
    unfold checkIntegrity
    rw [hres, if_neg (by decide), Bool.and_true]
  · intro env root tf rectified fl hchk hfl
    unfold mkDataset
    rw [hres, if_pos hchk, hfl]
  · intro env root tf rectified ds hds fid
    have hsplit : ds.split = "testing" := by
      unfold mkDataset at hds
      split at hds
      · cases hfl : mkFramelist env.lidarDirNames with
        | none => rw [hfl] at hds; exact Except.noConfusion hds
        | some fl =>
          rw [hfl] at hds
          injection hds with hds
          rw [← hds, hres]
      · exact Except.noConfusion hds
    unfold rawSample
    have hsc : (if ds.split = "training"
        then (parse_kitti_label (env.labelStore fid)).map some
        else some none) = some none := by
      rw [hsplit, if_neg (by decide)]
    rw [hsc]
    exact ⟨_, rfl⟩

/-- Witness for C10 at the concrete split string "test". -/
theorem unknown_split_treated_as_test_witness :
    resolvedSplit "test" = "testing" ∧
    (∀ env root, checkIntegrity env root (resolvedSplit "test") =
      (env.pathExists (pathJoin (pathJoin root "testing") "image_2") &&
       env.pathExists (pathJoin (pathJoin root "testing") "calib") &&
       env.pathExists (pathJoin (pathJoin root "testing") "velodyne"))) ∧
    (∀ env root tf rectified fl,
      checkIntegrity env root "testing" = true →
      mkFramelist env.lidarDirNames = some fl →
      mkDataset env root "test" tf rectified =
        .ok ⟨root, "testing", tf, rectified, fl⟩) ∧
    (∀ env root tf rectified ds,
      mkDataset env root "test" tf rectified = .ok ds →
      ∀ fid, ∃ inputs, rawSample env ds fid = .ok (inputs, none)) :=
  unknown_split_treated_as_test "test" (by decide)

/-- A default-read below the length is a member. -/
theorem getD_mem {α : Type} (l : List α) (i : ℕ) (d : α) (h : i < l.length) :
    l.getD i d ∈ l := by
  rw [List.getD_eq_getElem?_getD, List.getElem?_eq_getElem h]
  exact List.getElem_mem h

/-- Default-read through a range-map. -/
theorem getD_range_map {β : Type} (n : ℕ) (f : ℕ → β) (d : β) (i : ℕ)
    (h : i < n) : ((List.range n).map f).getD i d = f i := by
  rw [List.getD_eq_getElem?_getD, List.getElem?_map, List.getElem?_range h]
  rfl

/-- Convolution output shape: `weight.length` channels of `H + 1 - kh`
rows of `W + 1 - kw` entries. -/
theorem shape3_conv2d (p : Conv2dP) (x : T3) (C H W : ℕ)
    (h : shape3 x C H W) (hC : 0 < C) (hH : 0 < H) :
    shape3 (conv2d p x) p.weight.length (H + 1 - convKh p) (W + 1 - convKw p) := by
  obtain ⟨h1, h2, h3⟩ := h
  have hch0 : x.getD 0 [] ∈ x := getD_mem x 0 [] (by omega)
  have hH' : t3H x = H := h2 _ hch0
  have hW' : t3W x = W := by
    refine h3 _ hch0 _ (getD_mem _ 0 [] ?_)
    rw [h2 _ hch0]
    omega
  refine ⟨by simp [conv2d], ?_, ?_⟩
  · intro ch hch
    obtain ⟨co, _, rfl⟩ := List.mem_map.mp hch
    simp [hH']
  · intro ch hch r hr
    obtain ⟨co, _, rfl⟩ := List.mem_map.mp hch
    obtain ⟨hh, _, rfl⟩ := List.mem_map.mp hr
    simp [hW']

/-- Eval-mode batch normalization preserves the shape. -/
theorem shape3_bn2d (p : BN2dP) (x : T3) (C H W : ℕ) (h : shape3 x C H W) :
    shape3 (bn2d p x) C H W := by
  obtain ⟨h1, h2, h3⟩ := h
  refine ⟨by simp [bn2d, h1], ?_, ?_⟩
  · intro ch hch
    obtain ⟨c, hc, rfl⟩ := List.mem_map.mp hch
    rw [List.mem_range] at hc
    rw [List.length_map]
    exact h2 _ (getD_mem x c [] hc)
  · intro ch hch r hr
    obtain ⟨c, hc, rfl⟩ := List.mem_map.mp hch
    obtain ⟨row, hrow, rfl⟩ := List.mem_map.mp hr
    rw [List.mem_range] at hc
    rw [List.length_map]
    exact h3 _ (getD_mem x c [] hc) row hrow

/-- ReLU preserves the shape. -/
theorem shape3_relu2d (x : T3) (C H W : ℕ) (h : shape3 x C H W) :
    shape3 (relu2d x) C H W := by
  obtain ⟨h1, h2, h3⟩ := h
  refine ⟨by simp [relu2d, h1], ?_, ?_⟩
  · intro ch hch
    obtain ⟨c, hc, rfl⟩ := List.mem_map.mp hch
    rw [List.length_map]
    exact h2 _ hc
  · intro ch hch r hr
    obtain ⟨c, hc, rfl⟩ := List.mem_map.mp hch
    obtain ⟨row, hrow, rfl⟩ := List.mem_map.mp hr
    rw [List.length_map]
    exact h3 _ hc _ hrow

/-- The (H, W, C) → (C, H, W) permutation swaps the extents. -/
theorem shape3_permQKCtoCQK (x : T3) (Q K C : ℕ) (h : shape3 x Q K C)
    (hQ : 0 < Q) (hK : 0 < K) : shape3 (permQKCtoCQK x) C Q K := by
  obtain ⟨h1, h2, h3⟩ := h
  have hch0 : x.getD 0 [] ∈ x := getD_mem x 0 [] (by omega)
  have hg1 : (x.getD 0 []).length = K := h2 _ hch0
  have hg2 : ((x.getD 0 []).getD 0 []).length = C := by
    refine h3 _ hch0 _ (getD_mem _ 0 [] ?_)
    rw [hg1]
    omega
  refine ⟨by simp [permQKCtoCQK, ← List.getD_eq_getElem?_getD, hg2], ?_, ?_⟩
  · intro ch hch
    obtain ⟨c, _, rfl⟩ := List.mem_map.mp hch
    simp [h1]
  · intro ch hch r hr
    obtain ⟨c, _, rfl⟩ := List.mem_map.mp hch
    obtain ⟨qi, _, rfl⟩ := List.mem_map.mp hr
    simp [← List.getD_eq_getElem?_getD, hg1]

/-- The (C, H, W) → (H, W, C) permutation swaps the extents back. -/
theorem shape3_permCQKtoQKC (x : T3) (C Q K : ℕ) (h : shape3 x C Q K)
    (hC : 0 < C) (hQ : 0 < Q) : shape3 (permCQKtoQKC x) Q K C := by
  obtain ⟨h1, h2, h3⟩ := h
  have hch0 : x.getD 0 [] ∈ x := getD_mem x 0 [] (by omega)
  have hg1 : (x.getD 0 []).length = Q := h2 _ hch0
  have hg2 : ((x.getD 0 []).getD 0 []).length = K := by
    refine h3 _ hch0 _ (getD_mem _ 0 [] ?_)
    rw [hg1]
    omega
  refine ⟨by simp [permCQKtoQKC, ← List.getD_eq_getElem?_getD, hg1], ?_, ?_⟩
  · intro ch hch
    obtain ⟨qi, _, rfl⟩ := List.mem_map.mp hch
    simp [← List.getD_eq_getElem?_getD, hg2]
  · intro ch hch r hr
    obtain ⟨qi, _, rfl⟩ := List.mem_map.mp hch
    obtain ⟨ki, _, rfl⟩ := List.mem_map.mp hr
    simp [h1]

/-- Concatenation along the last axis adds the feature extents. -/
theorem shape3_catLast (a b : T3) (Q K C1 C2 : ℕ)
    (ha : shape3 a Q K C1) (hb : shape3 b Q K C2) :
    shape3 (catLast a b) Q K (C1 + C2) := by
  obtain ⟨ha1, ha2, ha3⟩ := ha
  obtain ⟨hb1, hb2, hb3⟩ := hb
  refine ⟨by simp [catLast, ha1, hb1], ?_, ?_⟩
  · intro ch hch
    obtain ⟨pr, hpr, rfl⟩ := List.mem_map.mp hch
    have hm := List.of_mem_zip hpr
    rw [List.length_map, List.length_zip, ha2 _ hm.1, hb2 _ hm.2]
    omega
  · intro ch hch r hr
    obtain ⟨pr, hpr, rfl⟩ := List.mem_map.mp hch
    obtain ⟨rr, hrr, rfl⟩ := List.mem_map.mp hr
    have hm := List.of_mem_zip hpr
    have hm2 := List.of_mem_zip hrr
    rw [List.length_append, ha3 _ hm.1 _ hm2.1, hb3 _ hm.2 _ hm2.2]

/-- The spatial-transform reshape yields one k×k matrix per query. -/
theorem shape3_stnMatrices (k : ℕ) (T : T3) (C2 Q W : ℕ)
    (h : shape3 T C2 Q W) (hC2 : 0 < C2) :
    shape3 (stnMatrices k T) Q k k := by
  obtain ⟨h1, h2, h3⟩ := h
  have hg1 : (T.getD 0 []).length = Q := h2 _ (getD_mem T 0 [] (by omega))
  refine ⟨by simp [stnMatrices, ← List.getD_eq_getElem?_getD, hg1], ?_, ?_⟩
  · intro ch hch
    obtain ⟨qi, _, rfl⟩ := List.mem_map.mp hch
    simp
  · intro ch hch r hr
    obtain ⟨qi, _, rfl⟩ := List.mem_map.mp hch
    obtain ⟨a, _, rfl⟩ := List.mem_map.mp hr
    simp

/-- The batched matrix product of per-query k×k transforms with per-query
k×M features yields per-query k×M results. -/
theorem shape3_bmm (T X : T3) (Q k M : ℕ)
    (hT : shape3 T Q k k) (hX : shape3 X Q k M) (hk : 0 < k) :
    shape3 (bmm T X) Q k M := by
  obtain ⟨hT1, hT2, hT3⟩ := hT
  obtain ⟨hX1, hX2, hX3⟩ := hX
  refine ⟨by simp [bmm, hT1, hX1], ?_, ?_⟩
  · intro ch hch
    obtain ⟨pr, hpr, rfl⟩ := List.mem_map.mp hch
    have hm := List.of_mem_zip hpr
    simp [mmul, hT2 _ hm.1]
  
  · intro ch hch r hr
    obtain ⟨pr, hpr, rfl⟩ := List.mem_map.mp hch
    obtain ⟨i, _, rfl⟩ := List.mem_map.mp hr
    have hm := List.of_mem_zip hpr
    have hB0 : (pr.2.getD 0 []).length = M := by
      refine hX3 _ hm.2 _ (getD_mem _ 0 [] ?_)
      rw [hX2 _ hm.2]
      omega
    simp [mmul, ← List.getD_eq_getElem?_getD, hB0]

/-- Dropping the width-1 axis keeps channels and rows. -/
theorem squeezeW_shape (x : T3) (C H W : ℕ) (h : shape3 x C H W) :
    (squeezeW x).length = C ∧ ∀ row ∈ squeezeW x, row.length = H := by
  obtain ⟨h1, h2, _⟩ := h
  refine ⟨by simp [squeezeW, h1], ?_⟩
  intro row hrow
  obtain ⟨ch, hch, rfl⟩ := List.mem_map.mp hrow
  rw [List.length_map]
  exact h2 _ hch

/-- The relative-offset tensor is (queries, neighbors, 3). -/
theorem shape3_relOffsets (q : List Vec3) (g : List (List Vec3)) (Q k : ℕ)
    (hq : q.length = Q) (hg : g.length = Q) (hrows : ∀ r ∈ g, r.length = k) :
    shape3 (relOffsets q g) Q k 3 := by
  refine ⟨by simp [relOffsets, hq, hg], ?_, ?_⟩
  · intro ch hch
    obtain ⟨pr, hpr, rfl⟩ := List.mem_map.mp hch
    rw [List.length_map]
    exact hrows _ (List.of_mem_zip hpr).2
  · intro ch hch r hr
    obtain ⟨pr, hpr, rfl⟩ := List.mem_map.mp hch
    obtain ⟨n, hn, rfl⟩ := List.mem_map.mp hr
    rfl

/-- The strided slice has ⌈len/d⌉ elements. -/
theorem length_sliceStep (d : ℕ) (l : List ℕ) :
    (sliceStep d l).length = (l.length + d - 1) / d := by
  simp [sliceStep]

/-- The `j`-th element of the strided slice is the element at position
`j·d`. -/
theorem sliceStep_getD (d : ℕ) (l : List ℕ) (j : ℕ)
    (h : j < (l.length + d - 1) / d) :
    (sliceStep d l).getD j 0 = l.getD (j * d) 0 :=
  getD_range_map _ _ 0 j h

/-- Elements of the strided slice are elements of the list. -/
theorem sliceStep_sub (d : ℕ) (l : List ℕ) (hd : 0 < d) :
    ∀ v ∈ sliceStep d l, v ∈ l := by
  intro v hv
  obtain ⟨j, hj, rfl⟩ := List.mem_map.mp hv
  rw [List.mem_range] at hj
  have hjd : (j + 1) * d ≤ l.length + d - 1 :=
    (Nat.le_div_iff_mul_le hd).mp hj
  have hexp : (j + 1) * d = j * d + d := by ring
  have h1 : 1 * d ≤ (j + 1) * d := Nat.mul_le_mul_right d (by omega)
  have : j * d < l.length := by omega
  exact getD_mem l _ 0 this

/-- With `d > 0` dividing a `k·d`-element list, the strided slice has
exactly `k` elements. -/
theorem ceil_mul_div (kernel d : ℕ) (hd : 0 < d) :
    (kernel * d + d - 1) / d = kernel := by
  have h1 : kernel * d + d - 1 = d - 1 + d * kernel := by
    rw [Nat.mul_comm kernel d]
    omega
  rw [h1, Nat.add_mul_div_left _ _ hd, Nat.div_eq_of_lt (by omega)]
  omega

/-- The nearest-neighbor model returns `min m P` indices. -/
theorem length_knnModel (pts : List Vec3) (qp : Vec3) (m : ℕ) :
    (knnModel pts qp m).length = min m pts.length := by
  simp [knnModel, List.length_insertionSort]

/-- All indices the nearest-neighbor model returns are valid point
indices. -/
theorem knnModel_lt (pts : List Vec3) (qp : Vec3) (m : ℕ) :
    ∀ i ∈ knnModel pts qp m, i < pts.length := by
  intro i hi
  have h1 : i ∈ List.insertionSort (knnRel pts qp) (List.range pts.length) :=
    List.mem_of_mem_take hi
  have h2 : i ∈ List.range pts.length :=
    (List.perm_insertionSort _ _).mem_iff.mp h1
  exact List.mem_range.mp h2

/-- The nearest-neighbor model returns its indices distance-sorted. -/
theorem knnModel_sorted (pts : List Vec3) (qp : Vec3) (m : ℕ) :
    List.Sorted (knnRel pts qp) (knnModel pts qp m) :=
  List.Pairwise.sublist (List.take_sublist m _)
    (List.sorted_insertionSort (knnRel pts qp) (List.range pts.length))

/-- The returned indices really are the `m` nearest: every returned index
is at most as far from the query as every index the model did not
return. -/
theorem knnModel_nearest (pts : List Vec3) (qp : Vec3) (m : ℕ) :
    ∀ i ∈ knnModel pts qp m,
      ∀ j ∈ (List.insertionSort (knnRel pts qp) (List.range pts.length)).drop m,
        sqDist (pts.getD i v3zero) qp ≤ sqDist (pts.getD j v3zero) qp := by
  intro i hi j hj
  have hpw := List.sorted_insertionSort (knnRel pts qp) (List.range pts.length)
  unfold List.Sorted at hpw
  rw [← List.take_append_drop m
    (List.insertionSort (knnRel pts qp) (List.range pts.length)),
    List.pairwise_append] at hpw
  rcases hpw.2.2 i hi j hj with h | ⟨h, _⟩
  · exact le_of_lt h
  · exact le_of_eq h

/-- The index rows `XConv.forward` selects: one per query, each of
exactly `kernel` indices (every `dil`-th of the `kernel·dil` nearest). -/
theorem xconvIndices_shape (kernel dil : ℕ) (pts q : List Vec3)
    (hd : 0 < dil) (hP : kernel * dil ≤ pts.length) :
    (xconvIndices kernel dil pts q).length = q.length ∧
    (∀ r ∈ xconvIndices kernel dil pts q, r.length = kernel) ∧
    ∀ r ∈ xconvIndices kernel dil pts q, ∀ i ∈ r, i < pts.length := by
  refine ⟨by simp [xconvIndices], ?_, ?_⟩
  · intro r hr
    obtain ⟨qp, _, rfl⟩ := List.mem_map.mp hr
    rw [length_sliceStep, length_knnModel, Nat.min_eq_left hP, ceil_mul_div _ _ hd]
  · intro r hr i hi
    obtain ⟨qp, _, rfl⟩ := List.mem_map.mp hr
    exact knnModel_lt pts qp _ i (sliceStep_sub _ _ hd i hi)

/-- The gathered neighbor coordinates: one row per query of `kernel`
points. -/
theorem gatherPts_shape (pts : List Vec3) (idx : List (List ℕ)) (k : ℕ)
    (hrows : ∀ r ∈ idx, r.length = k) :
    (gatherPts pts idx).length = idx.length ∧
    ∀ r ∈ gatherPts pts idx, r.length = k := by
  refine ⟨by simp [gatherPts], ?_⟩
  intro r hr
  obtain ⟨ir, hir, rfl⟩ := List.mem_map.mp hr
  rw [List.length_map]
  exact hrows _ hir

/-- The gathered features: one row per query of `kernel` feature vectors
of the input feature dimension. -/
theorem gatherRows_shape (f : List (List ℚ)) (idx : List (List ℕ))
    (inC P k : ℕ) (hf1 : f.length = inC) (hf2 : ∀ r ∈ f, r.length = P)
    (hrows : ∀ r ∈ idx, r.length = k)
    (hbound : ∀ r ∈ idx, ∀ i ∈ r, i < P) :
    shape3 (gatherRows (transpose2 f) idx) idx.length k inC := by
  refine ⟨by simp [gatherRows], ?_, ?_⟩
  · intro r hr
    obtain ⟨ir, hir, rfl⟩ := List.mem_map.mp hr
    rw [List.length_map]
    exact hrows _ hir
  · intro r hr e he
    obtain ⟨ir, hir, rfl⟩ := List.mem_map.mp hr
    obtain ⟨i, hiir, rfl⟩ := List.mem_map.mp he
    cases hC : inC with
    | zero =>
      have hf0 : f = [] := List.length_eq_zero.mp (by omega)
      subst hf0
      simp [transpose2]
    | succ n =>
      have hlen : (transpose2 f).length = P := by
        unfold transpose2
        rw [List.length_map, List.length_range]
        exact hf2 _ (getD_mem f 0 [] (by omega))
      have hmem : (transpose2 f).getD i [] ∈ transpose2 f := by
        refine getD_mem _ i [] ?_
        rw [hlen]
        exact hbound _ hir i hiir
      obtain ⟨ii, _, heq⟩ := List.mem_map.mp hmem
      rw [← heq, List.length_map, List.length_range, hf1]
      exact hC

/-- One conv+bn+relu stage with kernel [1, k2] maps (C, H, W) to
(co, H, W + 1 - k2). -/
theorem shape3_convStage (c : Conv2dP) (b : BN2dP) (x : T3) (C H W co k2 : ℕ)
    (h : shape3 x C H W) (hc : convDims c co k2) (hC : 0 < C) (hH : 0 < H) :
    shape3 (relu2d (bn2d b (conv2d c x))) co H (W + 1 - k2) := by
  have h1 := shape3_conv2d c x C H W h hC hH
  rw [hc.1, hc.2.1, hc.2.2, Nat.add_sub_cancel] at h1
  exact shape3_relu2d _ _ _ _ (shape3_bn2d b _ _ _ _ h1)

/-- C4 (amended): `XConv.forward` finds, for each query, the
`kernel·dilation` nearest points in distance-sorted order, keeps the
neighbors at positions 0, d, 2d, …, (k−1)·d of that list (exactly
`kernel` per query), and, given `P ≥ kernel·dilation` points and `Q ≥ 1`
queries, produces an output feature tensor with exactly `out_channels`
feature values for each of the `Q` queries — laid out channels-first,
i.e. with per-batch-entry shape `(out_channels, Q)`, not the claimed
`(Q, out_channels)`. -/
theorem xconv_forward_spec (p : XConvP) (outC kernel dil : ℕ)
    (pts q : List Vec3) (feat : Option (List (List ℚ))) (inC P Q : ℕ)
    (hwf : xconvWf p outC (outC / 4) kernel)
    (h4 : 4 ≤ outC) (hk : 0 < kernel) (hd : 0 < dil)
    (hP : pts.length = P) (hQ : q.length = Q) (h0Q : 0 < Q)
    (hPk : kernel * dil ≤ P)
    (hfeat : ∀ f, feat = some f → f.length = inC ∧ ∀ r ∈ f, r.length = P) :
    (∀ qp ∈ q,
      (sliceStep dil (knnModel pts qp (kernel * dil))).length = kernel ∧
      (∀ j, j < kernel →
        (sliceStep dil (knnModel pts qp (kernel * dil))).getD j 0 =
          (knnModel pts qp (kernel * dil)).getD (j * dil) 0) ∧
      (knnModel pts qp (kernel * dil)).length = kernel * dil ∧
      List.Sorted (knnRel pts qp) (knnModel pts qp (kernel * dil)) ∧
      (∀ i ∈ knnModel pts qp (kernel * dil),
        ∀ j ∈ (List.insertionSort (knnRel pts qp)
            (List.range pts.length)).drop (kernel * dil),
          sqDist (pts.getD i v3zero) qp ≤ sqDist (pts.getD j v3zero) qp)) ∧
    (xconvForwardEntry p kernel dil pts q feat).length = outC ∧
    ∀ row ∈ xconvForwardEntry p kernel dil pts q feat, row.length = Q := by
  obtain ⟨hw1, hw2, hw3, hw4, hw5, hw6⟩ := hwf
  have hmid : 0 < outC / 4 := by omega
  have hksq : 0 < kernel ^ 2 := by positivity
  have hPk' : kernel * dil ≤ pts.length := by omega
  have hknnlen : ∀ qp : Vec3, (knnModel pts qp (kernel * dil)).length = kernel * dil := by
    intro qp
    rw [length_knnModel, Nat.min_eq_left hPk']
  constructor
  · intro qp _
    refine ⟨?_, ?_, hknnlen qp, knnModel_sorted pts qp _, knnModel_nearest pts qp _⟩
    · rw [length_sliceStep, hknnlen qp, ceil_mul_div _ _ hd]
    · intro j hj
      refine sliceStep_getD dil _ j ?_
      rw [hknnlen qp, ceil_mul_div _ _ hd]
      exact hj
  · have hidx := xconvIndices_shape kernel dil pts q hd hPk'
    have hg := gatherPts_shape pts (xconvIndices kernel dil pts q) kernel hidx.2.1
    have hpHat : shape3 (relOffsets q
        (gatherPts pts (xconvIndices kernel dil pts q))) Q kernel 3 := by
      refine shape3_relOffsets _ _ _ _ hQ ?_ hg.2
      rw [hg.1, hidx.1, hQ]
    have hpHatP : shape3 (permQKCtoCQK (relOffsets q
        (gatherPts pts (xconvIndices kernel dil pts q)))) 3 Q kernel :=
      shape3_permQKCtoCQK _ _ _ _ hpHat h0Q hk
    -- the lifting mlp: (3, Q, kernel) → (mid, Q, kernel)
    have hm1 := shape3_convStage p.mlpC1 p.mlpB1 _ 3 Q kernel (outC / 4) 1
      hpHatP hw1 (by omega) h0Q
    rw [Nat.add_sub_cancel] at hm1
    have hm2 := shape3_convStage p.mlpC2 p.mlpB2 _ (outC / 4) Q kernel (outC / 4) 1
      hm1 hw2 hmid h0Q
    rw [Nat.add_sub_cancel] at hm2
    have hmlp : shape3 (xconvMlp p (permQKCtoCQK (relOffsets q
        (gatherPts pts (xconvIndices kernel dil pts q))))) (outC / 4) Q kernel := hm2
    have hxhat0 : shape3 (permCQKtoQKC (xconvMlp p (permQKCtoCQK (relOffsets q
        (gatherPts pts (xconvIndices kernel dil pts q)))))) Q kernel (outC / 4) :=
      shape3_permCQKtoQKC _ _ _ _ hmlp hmid h0Q
    -- the spatial transform: (3, Q, kernel) → (kernel², Q, 1) → per-query k×k
    have hs1 := shape3_convStage p.stnC1 p.stnB1 _ 3 Q kernel (kernel ^ 2) kernel
      hpHatP hw3 (by omega) h0Q
    rw [show kernel + 1 - kernel = 1 from by omega] at hs1
    have hs2 := shape3_convStage p.stnC2 p.stnB2 _ (kernel ^ 2) Q 1 (kernel ^ 2) 1
      hs1 hw4 hksq h0Q
    rw [Nat.add_sub_cancel] at hs2
    have hs3 := shape3_conv2d p.stnC3 _ (kernel ^ 2) Q 1 hs2 hksq h0Q
    rw [hw5.1, hw5.2.1, hw5.2.2, Nat.add_sub_cancel, Nat.add_sub_cancel] at hs3
    have hstn : shape3 (xconvStn p (permQKCtoCQK (relOffsets q
        (gatherPts pts (xconvIndices kernel dil pts q))))) (kernel ^ 2) Q 1 := hs3
    have hT : shape3 (stnMatrices kernel (xconvStn p (permQKCtoCQK (relOffsets q
        (gatherPts pts (xconvIndices kernel dil pts q)))))) Q kernel kernel :=
      shape3_stnMatrices kernel _ (kernel ^ 2) Q 1 hstn hksq
    -- assemble, by cases on the optional input features
    cases feat with
    | none =>
      have hy := shape3_bmm _ _ Q kernel (outC / 4) hT hxhat0 hk
      have hyp := shape3_permQKCtoCQK _ Q kernel (outC / 4) hy h0Q hk
      have hf1 := shape3_convStage p.convC p.convB _ (outC / 4) Q kernel outC kernel
        hyp hw6 hmid h0Q
      rw [show kernel + 1 - kernel = 1 from by omega] at hf1
      have hsq := squeezeW_shape _ outC Q 1 hf1
      exact ⟨hsq.1, hsq.2⟩
    | some f =>
      have hff := hfeat f rfl
      have hgath : shape3 (gatherRows (transpose2 f)
          (xconvIndices kernel dil pts q)) Q kernel inC := by
        have := gatherRows_shape f (xconvIndices kernel dil pts q) inC P kernel
          hff.1 hff.2 hidx.2.1 (by rw [← hP]; exact hidx.2.2)
        rwa [hidx.1, hQ] at this
      have hxhat : shape3 (catLast
          (permCQKtoQKC (xconvMlp p (permQKCtoCQK (relOffsets q
            (gatherPts pts (xconvIndices kernel dil pts q))))))
          (gatherRows (transpose2 f) (xconvIndices kernel dil pts q)))
          Q kernel (outC / 4 + inC) :=
        shape3_catLast _ _ _ _ _ _ hxhat0 hgath
      have hy := shape3_bmm _ _ Q kernel (outC / 4 + inC) hT hxhat hk
      have hyp := shape3_permQKCtoCQK _ Q kernel (outC / 4 + inC) hy h0Q hk
      have hf1 := shape3_convStage p.convC p.convB _ (outC / 4 + inC) Q kernel
        outC kernel hyp hw6 (by omega) h0Q
      rw [show kernel + 1 - kernel = 1 from by omega] at hf1
      have hsq := squeezeW_shape _ outC Q 1 hf1
      exact ⟨hsq.1, hsq.2⟩

/-- Witness for C4 at a concrete one-point, one-query instance with
`out_channels = 4`, `kernel_size = dilation = 1`. -/
theorem xconv_forward_spec_witness :
    (∀ qp ∈ ptsEx3,
      (sliceStep 1 (knnModel ptsEx3 qp (1 * 1))).length = 1 ∧
      (∀ j, j < 1 →
        (sliceStep 1 (knnModel ptsEx3 qp (1 * 1))).getD j 0 =
          (knnModel ptsEx3 qp (1 * 1)).getD (j * 1) 0) ∧
      (knnModel ptsEx3 qp (1 * 1)).length = 1 * 1 ∧
      List.Sorted (knnRel ptsEx3 qp) (knnModel ptsEx3 qp (1 * 1)) ∧
      (∀ i ∈ knnModel ptsEx3 qp (1 * 1),
        ∀ j ∈ (List.insertionSort (knnRel ptsEx3 qp)
            (List.range ptsEx3.length)).drop (1 * 1),
          sqDist (ptsEx3.getD i v3zero) qp ≤ sqDist (ptsEx3.getD j v3zero) qp)) ∧
    (xconvForwardEntry xconvPEx 1 1 ptsEx3 ptsEx3 none).length = 4 ∧
    ∀ row ∈ xconvForwardEntry xconvPEx 1 1 ptsEx3 ptsEx3 none, row.length = 1 :=
  xconv_forward_spec xconvPEx 4 1 1 ptsEx3 ptsEx3 none 0 1 1
    (by decide) (by decide) (by decide) (by decide) (by decide) (by decide)
    (by decide) (by decide) (fun f h => Option.noConfusion h)

/-- C4 counterexample: with `out_channels = 4` and a single query
(`Q = 1`), the claimed per-batch-entry output shape `(Q, out_channels)`
would make the outer extent 1; the code produces the transposed
channels-first layout, outer extent `out_channels = 4`. -/
theorem xconv_output_channels_first :
    (xconvForwardEntry xconvPEx 1 1 ptsEx3 ptsEx3 none).length = 4 ∧
    ¬ (xconvForwardEntry xconvPEx 1 1 ptsEx3 ptsEx3 none).length = 1 := by
  constructor
  · decide
  · decide

/-- Mapping with a function that fixes the default commutes with
default-reads. -/
theorem getD_map_pres {α β : Type} (f : α → β) (l : List α) (i : ℕ)
    (da : α) (db : β) (hf : f da = db) : (l.map f).getD i db = f (l.getD i da) := by
  rw [List.getD_eq_getElem?_getD, List.getElem?_map, List.getD_eq_getElem?_getD]
  cases l[i]? <;> simp [hf]

/-- Mapping commutes with in-range default-reads for any defaults. -/
theorem getD_map_lt {α β : Type} (f : α → β) (l : List α) (i : ℕ)
    (da : α) (db : β) (h : i < l.length) :
    (l.map f).getD i db = f (l.getD i da) := by
  rw [List.getD_eq_getElem?_getD, List.getElem?_map, List.getElem?_eq_getElem h,
    List.getD_eq_getElem?_getD, List.getElem?_eq_getElem h]
  rfl

/-- Pooling an empty row yields an empty row. -/
theorem maxPoolRow_nil (k : ℕ) : maxPoolRow k [] = [] := by
  unfold maxPoolRow
  rw [if_neg]
  · rfl
  · rintro ⟨h1, h2⟩
    simp at h1
    omega

/-- A pooling window equal to the row length pools the whole row into a
single value. -/
theorem maxPoolRow_self (P : ℕ) (r : List ℚ) (hr : r.length = P) (h0 : 0 < P) :
    maxPoolRow P r = [listMax ((List.range P).map fun j => r.getD j 0)] := by
  unfold maxPoolRow
  rw [hr, if_pos ⟨le_refl P, h0⟩, Nat.sub_self, Nat.zero_div]
  norm_num
  rw [List.range_succ]
  simp

/-- The SetAbstraction mlp (1×1 conv stages) preserves the spatial
extents and keeps a positive channel count. -/
theorem saMlp_shape :
    ∀ (convs : List (Conv2dP × BN2dP)) (x : T3) (C H W : ℕ),
      shape3 x C H W → 0 < C → 0 < H →
      (∀ l ∈ convs, convKh l.1 = 1 ∧ convKw l.1 = 1 ∧ 0 < l.1.weight.length) →
      ∃ C2, 0 < C2 ∧ shape3 (saMlp convs x) C2 H W
  | [], x, C, H, W, h, hC, _, _ => ⟨C, hC, h⟩
  | l :: ls, x, C, H, W, h, hC, hH, hwf => by
    have hl := hwf l (List.mem_cons_self l ls)
    have h1 := shape3_conv2d l.1 x C H W h hC hH
    rw [hl.1, hl.2.1, Nat.add_sub_cancel, Nat.add_sub_cancel] at h1
    have h2 := shape3_relu2d _ _ _ _ (shape3_bn2d l.2 _ _ _ _ h1)
    exact saMlp_shape ls _ l.1.weight.length H W h2 hl.2.2 hH
      (fun m hm => hwf m (List.mem_cons_of_mem l hm))

/-- C5 (amended): for a SetAbstraction layer built with `radius = None`
(global mode) whose pool cap `k` equals the point count `P` (with `k ≠ P`
the max-pool covers width-k windows rather than the whole set — see the
counterexample), forward treats the entire point set as a single
neighborhood (one pseudo-query row holding all P points, raw
coordinates/features, no query-offset subtraction), applies the mlp to
it, and pools exactly one whole-point-set value per channel — regardless
of the query set, which the computation never reads. -/
theorem sa_global_spec (lay : SAParams) (pts q : List Vec3)
    (feat : Option (List (List ℚ))) (P : ℕ)
    (hk : lay.k = some P) (hP : pts.length = P) (h0 : 0 < P)
    (hfeat : ∀ f, feat = some f → 0 < f.length ∧ ∀ r ∈ f, r.length = P)
    (hwf : ∀ l ∈ lay.convs,
      convKh l.1 = 1 ∧ convKw l.1 = 1 ∧ 0 < l.1.weight.length) :
    ((globalNbr pts feat).length = 1 ∧
      (∀ nb ∈ globalNbr pts feat, nb.length = P) ∧
      ∀ i, i < P → ∀ c, c < 3 →
        t3get (globalNbr pts feat) 0 i c =
          [(pts.getD i v3zero).1, (pts.getD i v3zero).2.1,
            (pts.getD i v3zero).2.2].getD c 0) ∧
    (saForwardEntry lay none pts q feat =
      some (maxPool2dW P (saMlp lay.convs (permQKCtoCQK (globalNbr pts feat)))) ∧
      ∀ q2 : List Vec3, saForwardEntry lay none pts q2 feat =
        saForwardEntry lay none pts q feat) ∧
    (∃ C2, 0 < C2 ∧
      (maxPool2dW P (saMlp lay.convs (permQKCtoCQK (globalNbr pts feat)))).length
        = C2 ∧
      (∀ ch ∈ maxPool2dW P (saMlp lay.convs (permQKCtoCQK (globalNbr pts feat))),
        ch.length = 1 ∧ ∀ r ∈ ch, r.length = 1) ∧
      ∀ c, c < C2 →
        t3get (maxPool2dW P (saMlp lay.convs (permQKCtoCQK (globalNbr pts feat))))
            c 0 0 =
          listMax ((List.range P).map fun j =>
            t3get (saMlp lay.convs (permQKCtoCQK (globalNbr pts feat))) c 0 j)) := by
  have hrow3 : shape3 [pts.map fun v => [v.1, v.2.1, v.2.2]] 1 P 3 := by
    refine ⟨rfl, ?_, ?_⟩
    · intro nb hnb
      rw [List.mem_singleton] at hnb
      subst hnb
      rw [List.length_map, hP]
    · intro nb hnb r hr
      rw [List.mem_singleton] at hnb
      subst hnb
      obtain ⟨v, _, rfl⟩ := List.mem_map.mp hr
      rfl
  have hnbr : ∃ C0, 3 ≤ C0 ∧ shape3 (globalNbr pts feat) 1 P C0 := by
    cases feat with
    | none => exact ⟨3, le_refl 3, hrow3⟩
    | some f =>
      obtain ⟨hf0, hfr⟩ := hfeat f rfl
      have hb : shape3 [transpose2 f] 1 P f.length := by
        refine ⟨rfl, ?_, ?_⟩
        · intro nb hnb
          rw [List.mem_singleton] at hnb
          subst hnb
          unfold transpose2
          rw [List.length_map, List.length_range]
          exact hfr _ (getD_mem f 0 [] hf0)
        · intro nb hnb r hr
          rw [List.mem_singleton] at hnb
          subst hnb
          obtain ⟨i, _, rfl⟩ := List.mem_map.mp hr
          simp
      exact ⟨3 + f.length, by omega, shape3_catLast _ _ 1 P 3 f.length hrow3 hb⟩
  obtain ⟨C0, hC0, hshn⟩ := hnbr
  have hperm := shape3_permQKCtoCQK _ 1 P C0 hshn (by omega) h0
  obtain ⟨C2, hC2, hmsh⟩ :=
    saMlp_shape lay.convs _ C0 1 P hperm (by omega) (by omega) hwf
  refine ⟨⟨hshn.1, hshn.2.1, ?_⟩, ⟨?_, ?_⟩, ?_⟩
  · -- raw coordinates in the single neighborhood row
    intro i hi c hc
    cases feat with
    | none =>
      unfold globalNbr t3get
      rw [List.getD_cons_zero, getD_map_lt _ pts i v3zero [] (by omega)]
    | some f =>
      obtain ⟨hf0, hfr⟩ := hfeat f rfl
      have hlt : (transpose2 f).length = P := by
        unfold transpose2
        rw [List.length_map, List.length_range]
        exact hfr _ (getD_mem f 0 [] hf0)
      have hgn : globalNbr pts (some f) =
          catLast [pts.map fun v => [v.1, v.2.1, v.2.2]] [transpose2 f] := rfl
      rw [hgn]
      unfold catLast t3get
      rw [List.zip_cons_cons, List.zip_nil_right]
      simp only [List.map_cons, List.map_nil, List.getD_cons_zero]
      rw [getD_map_lt _ _ i ([], []) [] (by
        rw [List.length_zip, List.length_map, hP, hlt]
        omega)]
      have hzip : ((pts.map fun v => [v.1, v.2.1, v.2.2]).zip
          (transpose2 f)).getD i ([], []) =
          ((pts.map fun v => [v.1, v.2.1, v.2.2]).getD i [],
            (transpose2 f).getD i []) := by
        rw [List.getD_eq_getElem?_getD, List.getElem?_eq_getElem (by
          rw [List.length_zip, List.length_map, hP, hlt]
          omega)]
        rw [List.getElem_zip]
        rw [List.getD_eq_getElem?_getD, List.getElem?_eq_getElem (by
          rw [List.length_map, hP]
          omega)]
        rw [List.getD_eq_getElem?_getD, List.getElem?_eq_getElem (by
          rw [hlt]
          omega)]
        rfl
      rw [hzip]
      rw [getD_map_lt _ pts i v3zero [] (by omega)]
      rw [List.getD_append]
      rw [show ((pts.getD i v3zero).1 :: [(pts.getD i v3zero).2.1,
        (pts.getD i v3zero).2.2]).length = 3 from rfl]
      omega
  · -- forward in global mode: mlp then pool of the single neighborhood
    unfold saForwardEntry
    rw [hk]
  · -- the queries are never read
    intro q2
    unfold saForwardEntry
    rw [hk]
  · -- pooled output: one value per channel, the max over all P points
    refine ⟨C2, hC2, ?_, ?_, ?_⟩
    · unfold maxPool2dW
      rw [List.length_map, hmsh.1]
    · intro ch hch
      obtain ⟨mlpCh, hmem, rfl⟩ := List.mem_map.mp hch
      constructor
      · rw [List.length_map]
        exact hmsh.2.1 _ hmem
      · intro r hr
        obtain ⟨r0, hr0, rfl⟩ := List.mem_map.mp hr
        rw [maxPoolRow_self P r0 (hmsh.2.2 _ hmem _ hr0) h0]
        rfl
    · intro c hcl
      have hchm : (saMlp lay.convs (permQKCtoCQK (globalNbr pts feat))).getD c []
          ∈ saMlp lay.convs (permQKCtoCQK (globalNbr pts feat)) :=
        getD_mem _ c [] (by rw [hmsh.1]; omega)
      have hch1 : ((saMlp lay.convs (permQKCtoCQK (globalNbr pts feat))).getD
          c []).length = 1 := hmsh.2.1 _ hchm
      have hrowm : ((saMlp lay.convs (permQKCtoCQK (globalNbr pts feat))).getD
          c []).getD 0 [] ∈
          (saMlp lay.convs (permQKCtoCQK (globalNbr pts feat))).getD c [] :=
        getD_mem _ 0 [] (by rw [hch1]; omega)
      have hrlen := hmsh.2.2 _ hchm _ hrowm
      unfold maxPool2dW t3get
      rw [getD_map_pres _ _ c [] [] rfl]
      rw [getD_map_pres (maxPoolRow P) _ 0 [] [] (maxPoolRow_nil P)]
      rw [maxPoolRow_self P _ hrlen h0]
      rw [List.getD_cons_zero]

/-- Witness for C5 at a concrete global-mode layer whose pool cap equals
the point count (`k = P = 2`). -/
theorem sa_global_spec_witness :
    ((globalNbr ptsPair none).length = 1 ∧
      (∀ nb ∈ globalNbr ptsPair none, nb.length = 2) ∧
      ∀ i, i < 2 → ∀ c, c < 3 →
        t3get (globalNbr ptsPair none) 0 i c =
          [(ptsPair.getD i v3zero).1, (ptsPair.getD i v3zero).2.1,
            (ptsPair.getD i v3zero).2.2].getD c 0) ∧
    (saForwardEntry saLayEx2 none ptsPair ptsEx3 none =
      some (maxPool2dW 2 (saMlp saLayEx2.convs
        (permQKCtoCQK (globalNbr ptsPair none)))) ∧
      ∀ q2 : List Vec3, saForwardEntry saLayEx2 none ptsPair q2 none =
        saForwardEntry saLayEx2 none ptsPair ptsEx3 none) ∧
    (∃ C2, 0 < C2 ∧
      (maxPool2dW 2 (saMlp saLayEx2.convs
        (permQKCtoCQK (globalNbr ptsPair none)))).length = C2 ∧
      (∀ ch ∈ maxPool2dW 2 (saMlp saLayEx2.convs
          (permQKCtoCQK (globalNbr ptsPair none))),
        ch.length = 1 ∧ ∀ r ∈ ch, r.length = 1) ∧
      ∀ c, c < C2 →
        t3get (maxPool2dW 2 (saMlp saLayEx2.convs
            (permQKCtoCQK (globalNbr ptsPair none)))) c 0 0 =
          listMax ((List.range 2).map fun j =>
            t3get (saMlp saLayEx2.convs
              (permQKCtoCQK (globalNbr ptsPair none))) c 0 j)) :=
  sa_global_spec saLayEx2 ptsPair ptsEx3 none 2 rfl (by decide) (by decide)
    (fun f h => Option.noConfusion h)
    (fun l hl => absurd hl (List.not_mem_nil l))

/-- C5 counterexample: a global-mode layer (radius = None) built with pool
cap `k = 1` over `P = 2` points pools two width-1 windows instead of one
whole-point-set neighborhood — the pooled row has 2 entries, not 1 — so
the claim fails for a radius-None layer whose `k` differs from the point
count. -/
theorem sa_global_pool_windows :
    (saForwardEntry saLayEx1 none ptsPair ptsEx3 none).isSome = true ∧
    ((((saForwardEntry saLayEx1 none ptsPair ptsEx3 none).getD
        []).getD 0 []).getD 0 []).length = 2 ∧
    ¬ ((((saForwardEntry saLayEx1 none ptsPair ptsEx3 none).getD
        []).getD 0 []).getD 0 []).length = 1 := by
  refine ⟨by decide, by decide, by decide⟩

/-- C6: both layers are stateless maps.  A forward call — threaded
through the stateful call wrappers that carry each layer's owned
parameters (convolution kernel weights and the eval-mode normalization
statistics) — returns the state unchanged, and a second invocation on the
same inputs, fed the state returned by the first, produces an equal
result; the two layers share no state (each call touches only its own
parameter record).  Training-mode statistics updates are outside the
specification's scope (weights are fixed at inference). -/
theorem layers_stateless (p : XConvP) (kernel dil : ℕ) (lay : SAParams)
    (radius : Option ℚ) (pts q : List Vec3)
    (feat : Option (List (List ℚ))) :
    (xconvForwardS p kernel dil pts q feat).2 = p ∧
    (saForwardS lay radius pts q feat).2 = lay ∧
    (xconvForwardS (xconvForwardS p kernel dil pts q feat).2
        kernel dil pts q feat).1 =
      (xconvForwardS p kernel dil pts q feat).1 ∧
    (saForwardS (saForwardS lay radius pts q feat).2
        radius pts q feat).1 =
      (saForwardS lay radius pts q feat).1 :=
  ⟨rfl, rfl, rfl, rfl⟩

end Torch3d